import Mathlib

/-!
Verification of the provider-selection and rate-limited waterfall engine.

This file gives a shallow embedding of the engine's core:
  * the sliding-window rate-limit stores
    (`InMemoryRateLimitStore` from
    src/backend/src/infrastructure/rate-limit/InMemoryRateLimitStore.ts,
    `RedisRateLimitStore` from
    src/backend/src/infrastructure/rate-limit/RedisRateLimitStore.ts, and the
    pipelined Redis variant found in src/unnamed/part_006),
  * the eligibility filters and the priority sorter
    (EnabledProviderFilter.ts, UserTierProviderFilter.ts,
    RateLimitProviderFilter.ts, PriorityProviderSorter.ts),
  * the selection pipeline (ProviderSelectionPipeline.ts), and
  * the waterfall executor (FindPhoneUseCase in findPhoneUseCase.ts).

Times are modelled as natural numbers of milliseconds since the epoch
(`Date.now()` is always nonnegative); window arithmetic that can go negative
in JavaScript is carried out in `Int`.  JavaScript `Map`s and Redis keyspaces
are modelled as functions `String → Option _`.
-/

namespace Waterfall

/-- Provider identifiers.  The `ProviderName` value-object file is not under
src/; the three members are taken from its uses (`ProviderName.ORION_CONNECT`,
`ProviderName.ASTRA_DIALER`, `ProviderName.NIMBUS_LOOKUP`).  Only the
injectivity of the underlying string encoding matters below. -/
inductive ProviderName
  | orionConnect
  | astraDialer
  | nimbusLookup
deriving DecidableEq, Repr

/-- Modelled from the spec: string value of a provider name (the enum's string
values live in the missing value-objects file; any injective encoding is
faithful for key construction). -/
def ProviderName.str : ProviderName → String
  | .orionConnect => "OrionConnect"
  | .astraDialer => "AstraDialer"
  | .nimbusLookup => "NimbusLookup"

/-- Rate limit configuration for a provider (ProviderConfig.ts). -/
structure RateLimitConfig where
  maxRequestsPerHour : Nat
deriving DecidableEq, Repr

/-- Configuration for a phone provider (ProviderConfig.ts).  `minUserTier` is
the ordinal of the `UserTier` enum (FREE = 0 < BASIC = 1 < PREMIUM = 2 <
ENTERPRISE = 3). -/
structure ProviderConfig where
  name : ProviderName
  enabled : Bool
  priority : Int
  rateLimit : Option RateLimitConfig := none
  minUserTier : Option Nat := none
deriving DecidableEq, Repr

/-- Context passed to the filters; `userTier` defaults to FREE (0) when
absent (UserTierProviderFilter.ts). -/
structure ProviderFilterContext where
  userTier : Option Nat := none
deriving DecidableEq, Repr

/-- Start of the sliding window: `now - windowSeconds * 1000`, computed in
`Int` exactly as JavaScript number arithmetic does. -/
def windowStartOf (now : Nat) (windowSeconds : Nat) : Int :=
  (now : Int) - (windowSeconds : Int) * 1000

/-- A timestamp survives pruning iff it is strictly newer than the window
start (`ts > windowStart` in both store implementations). -/
def tsInWindow (windowStart : Int) (ts : Nat) : Bool :=
  decide (windowStart < (ts : Int))

/-! ## In-memory store (InMemoryRateLimitStore.ts) -/

/-- Per-key record of consumption timestamps (interface `RateLimitEntry`). -/
structure RateLimitEntry where
  timestamps : List Nat
deriving DecidableEq, Repr

/-- In-memory store: a `Map<string, RateLimitEntry>`. -/
structure InMemoryRateLimitStore where
  store : String → Option RateLimitEntry

/-- The empty store built by its constructor. -/
def InMemoryRateLimitStore.empty : InMemoryRateLimitStore :=
  ⟨fun _ => none⟩

/-- Map update used by `tryConsume` and `reset`. -/
def InMemoryRateLimitStore.set (s : InMemoryRateLimitStore) (key : String)
    (e : Option RateLimitEntry) : InMemoryRateLimitStore :=
  ⟨fun k => if k = key then e else s.store k⟩

/-- `tryConsume(key, limit, windowSeconds)` of InMemoryRateLimitStore.ts:
fetch or create the entry, prune timestamps outside the window, deny when the
pruned count has reached `limit`, otherwise record `now`.  Being a
single-threaded function with no internal suspension point, a whole call is
one atomic step. -/
def InMemoryRateLimitStore.tryConsume (s : InMemoryRateLimitStore)
    (key : String) (limit : Nat) (windowSeconds : Nat) (now : Nat) :
    Bool × InMemoryRateLimitStore :=
  let windowStart := windowStartOf now windowSeconds
  let entry := (s.store key).getD ⟨[]⟩
  let pruned := entry.timestamps.filter (tsInWindow windowStart)
  if limit ≤ pruned.length then
    (false, s.set key (some ⟨pruned⟩))
  else
    (true, s.set key (some ⟨pruned ++ [now]⟩))

/-- `getCount(key)`: the stored entry's length, with no pruning and no state
change. -/
def InMemoryRateLimitStore.getCount (s : InMemoryRateLimitStore)
    (key : String) : Nat :=
  match s.store key with
  | some e => e.timestamps.length
  | none => 0

/-- `reset(key)`: delete the key. -/
def InMemoryRateLimitStore.reset (s : InMemoryRateLimitStore) (key : String) :
    InMemoryRateLimitStore :=
  s.set key none

/-! ## Rate-limit filter (RateLimitProviderFilter.ts) -/

/-- UTC hour bucket of a timestamp: `toISOString().slice(0, 13)` identifies
the calendar hour, i.e. `now / 3600000` for epoch-based times. -/
def hourBucket (now : Nat) : Nat := now / 3600000

/-- Rate-limit key: `provider:${provider.name}:${hour}`. -/
def rateLimitKey (name : ProviderName) (now : Nat) : String :=
  "provider:" ++ name.str ++ ":" ++ toString (hourBucket now)

/-- One hour, the constant `windowSeconds` used by `consumeRateLimit`. -/
def rateLimitWindowSeconds : Nat := 3600

/-- `RateLimitProviderFilter.filter`: keep providers with no configured limit,
and providers whose current `getCount` is under their limit.  Read-only
preview; never consumes. -/
def RateLimitProviderFilter.filter (store : InMemoryRateLimitStore)
    (providers : List ProviderConfig) (now : Nat) : List ProviderConfig :=
  providers.filter fun p =>
    match p.rateLimit with
    | none => true
    | some rl =>
        decide (store.getCount (rateLimitKey p.name now) < rl.maxRequestsPerHour)

/-- `RateLimitProviderFilter.consumeRateLimit`: providers without a limit are
always allowed without touching the store; otherwise one `tryConsume` on the
provider's hour-bucketed key with a 3600-second window. -/
def RateLimitProviderFilter.consumeRateLimit (store : InMemoryRateLimitStore)
    (p : ProviderConfig) (now : Nat) : Bool × InMemoryRateLimitStore :=
  match p.rateLimit with
  | none => (true, store)
  | some rl =>
      store.tryConsume (rateLimitKey p.name now) rl.maxRequestsPerHour
        rateLimitWindowSeconds now

/-! ## Enabled and tier filters -/

/-- `EnabledProviderFilter.filter`: keep exactly the enabled providers. -/
def EnabledProviderFilter.filter (providers : List ProviderConfig) :
    List ProviderConfig :=
  providers.filter (·.enabled)

/-- `UserTierProviderFilter.filter`: default the caller tier to 0 (FREE) and
keep providers without a tier floor or whose floor is at most the caller
tier. -/
def UserTierProviderFilter.filter (providers : List ProviderConfig)
    (ctx : ProviderFilterContext) : List ProviderConfig :=
  providers.filter fun p =>
    match p.minUserTier with
    | none => true
    | some m => decide (m ≤ ctx.userTier.getD 0)

/-! ## Priority sorter (PriorityProviderSorter.ts)

`[...providers].sort((a, b) => b.priority - a.priority)` is, by the
ECMAScript specification of `Array.prototype.sort`, a stable sort placing
higher priorities first.  It is modelled as the canonical stable descending
insertion sort. -/

/-- Insert `p` after every element of strictly greater priority and before
the rest; equal priorities keep the earlier element first. -/
def insertByPriority (p : ProviderConfig) :
    List ProviderConfig → List ProviderConfig
  | [] => [p]
  | q :: qs =>
      if p.priority < q.priority then q :: insertByPriority p qs
      else p :: q :: qs

/-- `PriorityProviderSorter.sort`: stable sort, higher priority first. -/
def PriorityProviderSorter.sort : List ProviderConfig → List ProviderConfig
  | [] => []
  | p :: ps => insertByPriority p (PriorityProviderSorter.sort ps)

/-! ## Selection pipeline (ProviderSelectionPipeline.ts)

`execute` applies the registered filters in order, then sorts.  The worker
wiring (availablePhoneProviders.ts, phoneActivities.ts) registers the
enabled, tier and rate-limit filters in that order. -/

/-- `ProviderSelectionPipeline.execute` for the registered chain used by the
application: enabled filter, tier filter, rate-limit filter, then the
priority sort. -/
def ProviderSelectionPipeline.execute (store : InMemoryRateLimitStore)
    (providers : List ProviderConfig) (ctx : ProviderFilterContext)
    (now : Nat) : List ProviderConfig :=
  PriorityProviderSorter.sort
    (RateLimitProviderFilter.filter store
      (UserTierProviderFilter.filter
        (EnabledProviderFilter.filter providers) ctx) now)

/-! ## Redis store (RedisRateLimitStore.ts)

The Redis keyspace is modelled per command.  A key holds a sorted set whose
members are the strings `${now}` with score `now`, so a set of millisecond
values; `EXPIRE` attaches a deadline after which the key is gone.  Expiry is
applied lazily: every command first checks whether the key's deadline has
passed. -/

/-- A Redis sorted-set key: members (timestamp values, insertion order,
no duplicates) and the optional expiry deadline in milliseconds. -/
structure RedisEntry where
  members : List Nat
  expireAt : Option Nat := none
deriving DecidableEq, Repr

/-- The Redis keyspace. -/
structure RedisState where
  store : String → Option RedisEntry

/-- The flushed keyspace. -/
def RedisState.empty : RedisState := ⟨fun _ => none⟩

/-- Keyspace update. -/
def RedisState.set (st : RedisState) (key : String) (e : Option RedisEntry) :
    RedisState :=
  ⟨fun k => if k = key then e else st.store k⟩

/-- The entry visible at time `now`: `none` once the expiry deadline has
passed. -/
def RedisState.live (st : RedisState) (key : String) (now : Nat) :
    Option RedisEntry :=
  match st.store key with
  | some e =>
      match e.expireAt with
      | some d => if d ≤ now then none else some e
      | none => some e
  | none => none

/-- `ZREMRANGEBYSCORE key min max`: drop members with score in `[min, max]`.
Redis deletes a sorted set that becomes empty. -/
def RedisState.zremrangebyscore (st : RedisState) (key : String)
    (min max : Int) (now : Nat) : RedisState :=
  match st.live key now with
  | none => st.set key none
  | some e =>
      let ms := e.members.filter fun (ts : Nat) =>
        !(decide (min ≤ (ts : Int)) && decide ((ts : Int) ≤ max))
      st.set key (if ms.isEmpty then none else some ⟨ms, e.expireAt⟩)

/-- `ZCARD key`: number of members, 0 for a missing key. -/
def RedisState.zcard (st : RedisState) (key : String) (now : Nat) : Nat :=
  match st.live key now with
  | some e => e.members.length
  | none => 0

/-- `ZADD key now now`: member `${now}` with score `now`; adding an existing
member only updates its (identical) score.  A fresh key starts without an
expiry deadline. -/
def RedisState.zadd (st : RedisState) (key : String) (ts : Nat)
    (now : Nat) : RedisState :=
  match st.live key now with
  | none => st.set key (some ⟨[ts], none⟩)
  | some e =>
      st.set key
        (some ⟨if e.members.contains ts then e.members else e.members ++ [ts],
               e.expireAt⟩)

/-- `EXPIRE key seconds`: set the deadline `now + seconds * 1000` on a live
key; a no-op on a missing key. -/
def RedisState.expire (st : RedisState) (key : String) (seconds : Nat)
    (now : Nat) : RedisState :=
  match st.live key now with
  | none => st.set key none
  | some e => st.set key (some ⟨e.members, some (now + seconds * 1000)⟩)

/-- `DEL key`. -/
def RedisState.del (st : RedisState) (key : String) : RedisState :=
  st.set key none

/-- `RedisRateLimitStore.tryConsume` of
src/backend/src/infrastructure/rate-limit/RedisRateLimitStore.ts, executed
without interference and without backend errors: prune, count, and only when
the count is under the limit add the timestamp and refresh the expiry.  The
four commands are separate awaited round-trips, not one atomic operation;
`tryConsumeInterleaved` below models two racing calls. -/
def RedisRateLimitStore.tryConsume (st : RedisState) (key : String)
    (limit : Nat) (windowSeconds : Nat) (now : Nat) : Bool × RedisState :=
  let windowStart := windowStartOf now windowSeconds
  let st1 := st.zremrangebyscore key 0 windowStart now
  let currentCount := st1.zcard key now
  if currentCount < limit then
    let st2 := st1.zadd key now now
    let st3 := st2.expire key windowSeconds now
    (true, st3)
  else
    (false, st1)

/-- `RedisRateLimitStore.getCount`: a bare `ZCARD`, read-only and unpruned. -/
def RedisRateLimitStore.getCount (st : RedisState) (key : String)
    (now : Nat) : Nat :=
  st.zcard key now

/-- `RedisRateLimitStore.reset`: `DEL key`. -/
def RedisRateLimitStore.reset (st : RedisState) (key : String) : RedisState :=
  st.del key

/-- `RedisRateLimitStore.tryConsume` of the pipelined variant in
src/unnamed/part_006 (lines 102-143): the pipeline unconditionally runs
ZREMRANGEBYSCORE, ZCARD, ZADD and EXPIRE, then compares the pre-ZADD count
with the limit — so the timestamp is recorded even when the call returns
false. -/
def RedisRateLimitStorePipelined.tryConsume (st : RedisState) (key : String)
    (limit : Nat) (windowSeconds : Nat) (now : Nat) : Bool × RedisState :=
  let windowStart := windowStartOf now windowSeconds
  let st1 := st.zremrangebyscore key 0 windowStart now
  let currentCount := st1.zcard key now
  let st2 := st1.zadd key now now
  let st3 := st2.expire key windowSeconds now
  (decide (currentCount < limit), st3)

/-- `RedisRateLimitStore.tryConsume` with a fallible backend: `errorAt = some
i` means the i-th command issued in this call (0 = ZREMRANGEBYSCORE,
1 = ZCARD, 2 = ZADD, 3 = EXPIRE) throws.  The `catch` block of the source
returns `true` (fail open), keeping whatever partial state the earlier
commands left.  The third component reports whether an error was caught. -/
def RedisRateLimitStore.tryConsumeFallible (errorAt : Option Nat)
    (st : RedisState) (key : String) (limit : Nat) (windowSeconds : Nat)
    (now : Nat) : Bool × RedisState × Bool :=
  if errorAt = some 0 then (true, st, true)
  else
    let st1 := st.zremrangebyscore key 0 (windowStartOf now windowSeconds) now
    if errorAt = some 1 then (true, st1, true)
    else
      let currentCount := st1.zcard key now
      if currentCount < limit then
        if errorAt = some 2 then (true, st1, true)
        else
          let st2 := st1.zadd key now now
          if errorAt = some 3 then (true, st2, true)
          else (true, st2.expire key windowSeconds now, false)
      else
        (false, st1, false)

/-! ## Interleaved execution of two Redis tryConsume calls

`RedisRateLimitStore.tryConsume` issues its commands as separate awaited
round-trips, so commands of two concurrent calls to the same backend may
interleave.  A call is a small-step machine over its program counter; a
schedule says which caller issues the next command. -/

/-- Program counter of one in-flight `tryConsume` call: which commands are
still to be issued, remembering the observed count once ZCARD ran. -/
inductive TryConsumePc
  | atZrem
  | atZcard
  | atZadd (count : Nat)
  | atExpire (count : Nat)
  | done (result : Bool)
deriving DecidableEq, Repr

/-- One small step of a `tryConsume` call against the shared backend. -/
def tryConsumeStep (key : String) (limit : Nat) (windowSeconds : Nat)
    (now : Nat) (st : RedisState) :
    TryConsumePc → TryConsumePc × RedisState
  | .atZrem =>
      (.atZcard, st.zremrangebyscore key 0 (windowStartOf now windowSeconds) now)
  | .atZcard =>
      let c := st.zcard key now
      if c < limit then (.atZadd c, st) else (.done false, st)
  | .atZadd c => (.atExpire c, st.zadd key now now)
  | .atExpire _ => (.done true, st.expire key windowSeconds now)
  | .done r => (.done r, st)

/-- Run two concurrent `tryConsume` calls on the same key under a schedule:
`true` steps the first caller, `false` the second. -/
def tryConsumeInterleaved (key : String) (limit : Nat) (windowSeconds : Nat)
    (now : Nat) :
    List Bool → RedisState → TryConsumePc → TryConsumePc →
    TryConsumePc × TryConsumePc × RedisState
  | [], st, pc1, pc2 => (pc1, pc2, st)
  | c :: cs, st, pc1, pc2 =>
      if c then
        let (pc1x, stx) := tryConsumeStep key limit windowSeconds now st pc1
        tryConsumeInterleaved key limit windowSeconds now cs stx pc1x pc2
      else
        let (pc2x, stx) := tryConsumeStep key limit windowSeconds now st pc2
        tryConsumeInterleaved key limit windowSeconds now cs stx pc1 pc2x

/-! ## Waterfall executor (FindPhoneUseCase in findPhoneUseCase.ts) -/

/-- Search parameters forwarded to the adapters (IPhoneProvider.ts). -/
structure PhoneSearchParams where
  email : Option String := none
  fullName : Option String := none
  companyWebsite : Option String := none
  jobTitle : Option String := none
deriving DecidableEq, Repr

/-- A successful adapter response (IPhoneProvider.ts). -/
structure PhoneProviderResult where
  phone : String
  countryCode : Option String := none
deriving DecidableEq, Repr

/-- Observable behaviour of one `provider.findPhone(params)` call: a match,
`null`, or a thrown error (carrying its message). -/
inductive AdapterOutcome
  | found (r : PhoneProviderResult)
  | noMatch
  | threw (msg : String)
deriving DecidableEq, Repr

/-- A provider adapter: its `name` field and its `findPhone` behaviour. -/
structure IPhoneProvider where
  name : ProviderName
  findPhone : PhoneSearchParams → AdapterOutcome

/-- The `Map<string, IPhoneProvider>` held by the use case. -/
abbrev ProviderMap := ProviderName → Option IPhoneProvider

/-- The use case's return value (`PhoneResult`). -/
structure PhoneResult where
  phone : String
  provider : ProviderName
  countryCode : Option String := none
deriving DecidableEq, Repr

/-- Trace of the externally visible actions of one executor run. -/
inductive WaterfallEvent
  | missingAdapter (name : ProviderName)
  | consumed (name : ProviderName) (allowed : Bool)
  | invoked (name : ProviderName) (outcome : AdapterOutcome)
deriving DecidableEq, Repr

/-- The adapter invocations of a trace, in order. -/
def invokedEvents : List WaterfallEvent → List (ProviderName × AdapterOutcome)
  | [] => []
  | .invoked n o :: tr => (n, o) :: invokedEvents tr
  | _ :: tr => invokedEvents tr

/-- The `consumeRateLimit` calls of a trace, in order. -/
def consumedNames : List WaterfallEvent → List ProviderName
  | [] => []
  | .consumed n _ :: tr => n :: consumedNames tr
  | _ :: tr => consumedNames tr

/-- Whether an outcome is a non-null match. -/
def AdapterOutcome.isFound : AdapterOutcome → Bool
  | .found _ => true
  | _ => false

/-- The provider loop of `FindPhoneUseCase.execute`: for each config in
order, look the adapter up (skip with a warning when missing), consume a
rate-limit slot when the rate-limit filter was supplied (skip the provider on
denial), invoke the adapter, return immediately on a match, and continue on
`null` or a thrown error.  Returns the result, the final store and the event
trace. -/
def FindPhoneUseCase.run (map : ProviderMap) (rateLimited : Bool)
    (params : PhoneSearchParams) (now : Nat) :
    List ProviderConfig → InMemoryRateLimitStore →
    Option PhoneResult × InMemoryRateLimitStore × List WaterfallEvent
  | [], store => (none, store, [])
  | c :: rest, store =>
      match map c.name with
      | none =>
          let r := FindPhoneUseCase.run map rateLimited params now rest store
          (r.1, r.2.1, .missingAdapter c.name :: r.2.2)
      | some prov =>
          let consumed :=
            if rateLimited then
              RateLimitProviderFilter.consumeRateLimit store c now
            else (true, store)
          let consTrace : List WaterfallEvent :=
            if rateLimited then [.consumed c.name consumed.1] else []
          if consumed.1 then
            match prov.findPhone params with
            | .found pr =>
                (some ⟨pr.phone, prov.name, pr.countryCode⟩, consumed.2,
                  consTrace ++ [.invoked c.name (.found pr)])
            | .noMatch =>
                let r :=
                  FindPhoneUseCase.run map rateLimited params now rest consumed.2
                (r.1, r.2.1, consTrace ++ .invoked c.name .noMatch :: r.2.2)
            | .threw msg =>
                let r :=
                  FindPhoneUseCase.run map rateLimited params now rest consumed.2
                (r.1, r.2.1, consTrace ++ .invoked c.name (.threw msg) :: r.2.2)
          else
            let r :=
              FindPhoneUseCase.run map rateLimited params now rest consumed.2
            (r.1, r.2.1, consTrace ++ r.2.2)

/-- `FindPhoneUseCase.execute`: run the selection pipeline, return `null` for
an empty eligible list, otherwise run the waterfall loop. -/
def FindPhoneUseCase.execute (map : ProviderMap) (rateLimited : Bool)
    (configs : List ProviderConfig) (store : InMemoryRateLimitStore)
    (ctx : ProviderFilterContext) (params : PhoneSearchParams) (now : Nat) :
    Option PhoneResult × InMemoryRateLimitStore × List WaterfallEvent :=
  let available := ProviderSelectionPipeline.execute store configs ctx now
  if available.isEmpty then (none, store, [])
  else FindPhoneUseCase.run map rateLimited params now available store

/-- A `findPhone` call as a fallible operation: `.error` is a thrown
JavaScript exception escaping the adapter. -/
def IPhoneProvider.findPhoneE (prov : IPhoneProvider)
    (params : PhoneSearchParams) : Except String (Option PhoneProviderResult) :=
  match prov.findPhone params with
  | .found r => .ok (some r)
  | .noMatch => .ok none
  | .threw msg => .error msg

/-- The provider loop in the exception monad: the `try/catch` of the source
turns an `.error` from `findPhoneE` into "continue with the next provider";
an uncaught exception would surface as `.error` in the final value. -/
def FindPhoneUseCase.runE (map : ProviderMap) (rateLimited : Bool)
    (params : PhoneSearchParams) (now : Nat) :
    List ProviderConfig → InMemoryRateLimitStore →
    Except String (Option PhoneResult × InMemoryRateLimitStore)
  | [], store => .ok (none, store)
  | c :: rest, store =>
      match map c.name with
      | none => FindPhoneUseCase.runE map rateLimited params now rest store
      | some prov =>
          let consumed :=
            if rateLimited then
              RateLimitProviderFilter.consumeRateLimit store c now
            else (true, store)
          if consumed.1 then
            match prov.findPhoneE params with
            | .ok (some pr) =>
                .ok (some ⟨pr.phone, prov.name, pr.countryCode⟩, consumed.2)
            | .ok none =>
                FindPhoneUseCase.runE map rateLimited params now rest consumed.2
            | .error _ =>
                FindPhoneUseCase.runE map rateLimited params now rest consumed.2
          else
            FindPhoneUseCase.runE map rateLimited params now rest consumed.2

/-- `FindPhoneUseCase.execute` in the exception monad. -/
def FindPhoneUseCase.executeE (map : ProviderMap) (rateLimited : Bool)
    (configs : List ProviderConfig) (store : InMemoryRateLimitStore)
    (ctx : ProviderFilterContext) (params : PhoneSearchParams) (now : Nat) :
    Except String (Option PhoneResult × InMemoryRateLimitStore) :=
  let available := ProviderSelectionPipeline.execute store configs ctx now
  if available.isEmpty then .ok (none, store)
  else FindPhoneUseCase.runE map rateLimited params now available store

/-! ## Operation sequences against a store

Used to compare the two store implementations observationally (the store
contract: `tryConsume`, `getCount`, `reset`). -/

/-- One operation of the store contract. -/
inductive StoreOp
  | tryConsume (key : String) (limit : Nat) (windowSeconds : Nat)
  | getCount (key : String)
  | reset (key : String)
deriving DecidableEq, Repr

/-- The observable result of one operation. -/
inductive OpResult
  | allowed (b : Bool)
  | count (n : Nat)
  | unit
deriving DecidableEq, Repr

/-- Run a timestamped operation sequence against the in-memory store. -/
def InMemoryRateLimitStore.runOps :
    List (StoreOp × Nat) → InMemoryRateLimitStore → List OpResult
  | [], _ => []
  | (op, t) :: rest, s =>
      match op with
      | .tryConsume k l w =>
          let r := s.tryConsume k l w t
          .allowed r.1 :: InMemoryRateLimitStore.runOps rest r.2
      | .getCount k =>
          .count (s.getCount k) :: InMemoryRateLimitStore.runOps rest s
      | .reset k =>
          .unit :: InMemoryRateLimitStore.runOps rest (s.reset k)

/-- Run a timestamped operation sequence against the Redis store, each call
executing without interference. -/
def RedisRateLimitStore.runOps :
    List (StoreOp × Nat) → RedisState → List OpResult
  | [], _ => []
  | (op, t) :: rest, st =>
      match op with
      | .tryConsume k l w =>
          let r := RedisRateLimitStore.tryConsume st k l w t
          .allowed r.1 :: RedisRateLimitStore.runOps rest r.2
      | .getCount k =>
          .count (RedisRateLimitStore.getCount st k t) ::
            RedisRateLimitStore.runOps rest st
      | .reset k =>
          .unit :: RedisRateLimitStore.runOps rest (RedisRateLimitStore.reset st k)

/-- Successive `tryConsume` calls on one key: final store plus the
timestamps of the successful consumptions. -/
def consumeRun (key : String) (limit : Nat) (windowSeconds : Nat) :
    List Nat → InMemoryRateLimitStore →
    InMemoryRateLimitStore × List Nat
  | [], s => (s, [])
  | t :: ts, s =>
      let r := s.tryConsume key limit windowSeconds t
      let r2 := consumeRun key limit windowSeconds ts r.2
      (r2.1, (if r.1 then [t] else []) ++ r2.2)

/-! ## Lemmas about the priority sorter -/

lemma mem_insertByPriority (x p : ProviderConfig) (l : List ProviderConfig)
    (h : x ∈ insertByPriority p l) : x = p ∨ x ∈ l := by
  induction l with
  | nil => simpa [insertByPriority] using h
  | cons q qs ih =>
      rw [insertByPriority] at h
      by_cases hpq : p.priority < q.priority
      · rw [if_pos hpq] at h
        rcases List.mem_cons.mp h with rfl | h2
        · exact Or.inr (List.mem_cons_self _ _)
        · rcases ih h2 with h3 | h3
          · exact Or.inl h3
          · exact Or.inr (List.mem_cons_of_mem _ h3)
      · rw [if_neg hpq] at h
        rcases List.mem_cons.mp h with rfl | h2
        · exact Or.inl rfl
        · exact Or.inr h2

lemma pairwise_insertByPriority (p : ProviderConfig) (l : List ProviderConfig)
    (h : l.Pairwise fun a b => b.priority ≤ a.priority) :
    (insertByPriority p l).Pairwise fun a b => b.priority ≤ a.priority := by
  induction l with
  | nil => simp [insertByPriority]
  | cons q qs ih =>
      rw [List.pairwise_cons] at h
      obtain ⟨hq, hqs⟩ := h
      rw [insertByPriority]
      by_cases hpq : p.priority < q.priority
      · rw [if_pos hpq]
        refine List.pairwise_cons.mpr ⟨?_, ih hqs⟩
        intro x hx
        rcases mem_insertByPriority x p qs hx with rfl | h2
        · exact le_of_lt hpq
        · exact hq x h2
      · rw [if_neg hpq]
        push_neg at hpq
        refine List.pairwise_cons.mpr ⟨?_, List.pairwise_cons.mpr ⟨hq, hqs⟩⟩
        intro x hx
        rcases List.mem_cons.mp hx with rfl | h2
        · exact hpq
        · exact le_trans (hq x h2) hpq

lemma sort_pairwise (l : List ProviderConfig) :
    (PriorityProviderSorter.sort l).Pairwise
      fun a b => b.priority ≤ a.priority := by
  induction l with
  | nil => simp [PriorityProviderSorter.sort]
  | cons p ps ih =>
      rw [PriorityProviderSorter.sort]
      exact pairwise_insertByPriority p _ ih

lemma filter_insertByPriority_eq (p : ProviderConfig) (v : Int)
    (hv : p.priority = v) (l : List ProviderConfig) :
    (insertByPriority p l).filter (fun q => q.priority == v) =
      p :: l.filter (fun q => q.priority == v) := by
  induction l with
  | nil => simp [insertByPriority, List.filter_cons, hv]
  | cons q qs ih =>
      rw [insertByPriority]
      by_cases hpq : p.priority < q.priority
      · rw [if_pos hpq]
        have hqv : (q.priority == v) = false := by
          rw [beq_eq_false_iff_ne]
          intro hh
          rw [hh, ← hv] at hpq
          exact lt_irrefl _ hpq
        simp [List.filter_cons, hqv, ih]
      · rw [if_neg hpq]
        have hpv : (p.priority == v) = true := beq_iff_eq.mpr hv
        simp [List.filter_cons, hpv]

lemma filter_insertByPriority_ne (p : ProviderConfig) (v : Int)
    (hv : p.priority ≠ v) (l : List ProviderConfig) :
    (insertByPriority p l).filter (fun q => q.priority == v) =
      l.filter (fun q => q.priority == v) := by
  have hpv : (p.priority == v) = false := beq_eq_false_iff_ne.mpr hv
  induction l with
  | nil => simp [insertByPriority, List.filter_cons, hpv]
  | cons q qs ih =>
      rw [insertByPriority]
      by_cases hpq : p.priority < q.priority
      · rw [if_pos hpq]
        simp [List.filter_cons, ih]
      · rw [if_neg hpq]
        simp [List.filter_cons, hpv]

lemma sort_filter_priority (l : List ProviderConfig) (v : Int) :
    (PriorityProviderSorter.sort l).filter (fun q => q.priority == v) =
      l.filter (fun q => q.priority == v) := by
  induction l with
  | nil => rfl
  | cons p ps ih =>
      rw [PriorityProviderSorter.sort]
      by_cases hv : p.priority = v
      · rw [filter_insertByPriority_eq p v hv, ih, List.filter_cons,
          if_pos (by simpa using beq_iff_eq.mpr hv)]
      · rw [filter_insertByPriority_ne p v hv, ih, List.filter_cons,
          if_neg (by simpa using beq_eq_false_iff_ne.mpr hv)]

/-- The eligible list the pipeline feeds to the sorter. -/
def eligibleProviders (store : InMemoryRateLimitStore)
    (providers : List ProviderConfig) (ctx : ProviderFilterContext)
    (now : Nat) : List ProviderConfig :=
  RateLimitProviderFilter.filter store
    (UserTierProviderFilter.filter
      (EnabledProviderFilter.filter providers) ctx) now

lemma eligibleProviders_sublist (store : InMemoryRateLimitStore)
    (providers : List ProviderConfig) (ctx : ProviderFilterContext)
    (now : Nat) : (eligibleProviders store providers ctx now).Sublist providers := by
  refine List.Sublist.trans (List.filter_sublist _)
    (List.Sublist.trans (List.filter_sublist _) (List.filter_sublist _))

/-- C10: the Selection Pipeline's output is the stable descending sort of
the filtered list: it is pairwise sorted by descending priority, for each
priority value it lists exactly the eligible providers of that priority in
their input order, and the eligible list is itself an order-preserving
sublist of the input. -/
theorem selectionPipeline_sorted_stable (store : InMemoryRateLimitStore)
    (providers : List ProviderConfig) (ctx : ProviderFilterContext)
    (now : Nat) :
    (ProviderSelectionPipeline.execute store providers ctx now).Pairwise
        (fun a b => b.priority ≤ a.priority)
    ∧ (∀ v : Int,
        (ProviderSelectionPipeline.execute store providers ctx now).filter
            (fun p => p.priority == v) =
          (eligibleProviders store providers ctx now).filter
            (fun p => p.priority == v))
    ∧ (eligibleProviders store providers ctx now).Sublist providers := by
  refine ⟨sort_pairwise _, fun v => sort_filter_priority _ v,
    eligibleProviders_sublist store providers ctx now⟩

/-- Concrete instance of `selectionPipeline_sorted_stable`: a three-provider
list with a duplicate priority sorts descending and keeps the equal-priority
pair in input order. -/
theorem selectionPipeline_sorted_stable_witness :
    (ProviderSelectionPipeline.execute InMemoryRateLimitStore.empty
        [⟨.orionConnect, true, 5, none, none⟩,
         ⟨.astraDialer, true, 10, none, none⟩,
         ⟨.nimbusLookup, true, 5, none, none⟩] ⟨none⟩ 0).Pairwise
      (fun a b => b.priority ≤ a.priority) :=
  (selectionPipeline_sorted_stable InMemoryRateLimitStore.empty
    [⟨.orionConnect, true, 5, none, none⟩,
     ⟨.astraDialer, true, 10, none, none⟩,
     ⟨.nimbusLookup, true, 5, none, none⟩] ⟨none⟩ 0).1

/-! ## Lemmas about the waterfall loop -/

lemma invokedEvents_consTrace (b : Bool) (n : ProviderName) (al : Bool)
    (tr : List WaterfallEvent) :
    invokedEvents ((if b then [WaterfallEvent.consumed n al] else []) ++ tr) =
      invokedEvents tr := by
  cases b <;> simp [invokedEvents]

lemma mem_dropLast_cons {α : Type} (x e : α) (l : List α)
    (h : e ∈ (x :: l).dropLast) : e = x ∨ e ∈ l.dropLast := by
  cases l with
  | nil => simp [List.dropLast] at h
  | cons y ys =>
      rw [List.dropLast_cons₂] at h
      rcases List.mem_cons.mp h with rfl | h2
      · exact Or.inl rfl
      · exact Or.inr h2

lemma run_waterfall_props (map : ProviderMap) (rl : Bool)
    (params : PhoneSearchParams) (now : Nat) :
    ∀ (l : List ProviderConfig) (store : InMemoryRateLimitStore),
    (((invokedEvents
        (FindPhoneUseCase.run map rl params now l store).2.2).map
          Prod.fst).Sublist (l.map (·.name)))
    ∧ (∀ e ∈ (invokedEvents
          (FindPhoneUseCase.run map rl params now l store).2.2).dropLast,
        e.2.isFound = false)
    ∧ ((FindPhoneUseCase.run map rl params now l store).1.isSome = true ↔
        ∃ e ∈ invokedEvents
          (FindPhoneUseCase.run map rl params now l store).2.2,
          e.2.isFound = true)
    ∧ (∀ r, (FindPhoneUseCase.run map rl params now l store).1 = some r →
        ∃ w pr prov,
          (invokedEvents
            (FindPhoneUseCase.run map rl params now l store).2.2).getLast? =
              some (w, .found pr)
          ∧ map w = some prov
          ∧ r = ⟨pr.phone, prov.name, pr.countryCode⟩) := by
  intro l
  induction l with
  | nil =>
      intro store
      simp [FindPhoneUseCase.run, invokedEvents]
  | cons c rest ih =>
      intro store
      rw [FindPhoneUseCase.run]
      cases hme : map c.name with
      | none =>
          obtain ⟨ih1, ih2, ih3, ih4⟩ := ih store
          simp only [invokedEvents]
          exact ⟨ih1.trans (List.sublist_cons_self _ _), ih2, ih3, ih4⟩
      | some prov =>
          simp only
          cases hcon : (if rl then
              RateLimitProviderFilter.consumeRateLimit store c now
            else (true, store)) with
          | mk allowed store1 =>
              cases allowed with
              | false =>
                  obtain ⟨ih1, ih2, ih3, ih4⟩ := ih store1
                  simp only [Bool.false_eq_true, if_neg, invokedEvents_consTrace,
                    reduceIte]
                  exact ⟨ih1.trans (List.sublist_cons_self _ _), ih2, ih3, ih4⟩
              | true =>
                  simp only [if_pos]
                  cases hout : prov.findPhone params with
                  | found pr =>
                      simp only [invokedEvents_consTrace, invokedEvents]
                      refine ⟨?_, ?_, ?_, ?_⟩
                      · simp
                      · intro e he
                        simp [List.dropLast] at he
                      · simp [AdapterOutcome.isFound]
                      · intro r hr
                        refine ⟨c.name, pr, prov, by simp, hme, ?_⟩
                        simpa using hr.symm
                  | noMatch =>
                      obtain ⟨ih1, ih2, ih3, ih4⟩ := ih store1
                      simp only [invokedEvents_consTrace, invokedEvents]
                      refine ⟨List.cons_sublist_cons.mpr ih1, ?_, ?_, ?_⟩
                      · intro e he
                        rcases mem_dropLast_cons _ e _ he with rfl | h2
                        · rfl
                        · exact ih2 e h2
                      · rw [ih3]
                        constructor
                        · rintro ⟨e, he, hef⟩
                          exact ⟨e, List.mem_cons_of_mem _ he, hef⟩
                        · rintro ⟨e, he, hef⟩
                          rcases List.mem_cons.mp he with rfl | h2
                          · simp [AdapterOutcome.isFound] at hef
                          · exact ⟨e, h2, hef⟩
                      · intro r hr
                        obtain ⟨w, pr, prov2, hlast, hmw, hrr⟩ := ih4 r hr
                        refine ⟨w, pr, prov2, ?_, hmw, hrr⟩
                        have hne : invokedEvents
                            (FindPhoneUseCase.run map rl params now rest
                              store1).2.2 ≠ [] := by
                          intro hnil
                          rw [hnil] at hlast
                          simp at hlast
                        cases hcase : invokedEvents
                            (FindPhoneUseCase.run map rl params now rest
                              store1).2.2 with
                        | nil => exact absurd hcase hne
                        | cons a as =>
                            rw [hcase] at hlast
                            rw [List.getLast?_cons_cons]
                            exact hlast
                  | threw msg =>
                      obtain ⟨ih1, ih2, ih3, ih4⟩ := ih store1
                      simp only [invokedEvents_consTrace, invokedEvents]
                      refine ⟨List.cons_sublist_cons.mpr ih1, ?_, ?_, ?_⟩
                      · intro e he
                        rcases mem_dropLast_cons _ e _ he with rfl | h2
                        · rfl
                        · exact ih2 e h2
                      · rw [ih3]
                        constructor
                        · rintro ⟨e, he, hef⟩
                          exact ⟨e, List.mem_cons_of_mem _ he, hef⟩
                        · rintro ⟨e, he, hef⟩
                          rcases List.mem_cons.mp he with rfl | h2
                          · simp [AdapterOutcome.isFound] at hef
                          · exact ⟨e, h2, hef⟩
                      · intro r hr
                        obtain ⟨w, pr, prov2, hlast, hmw, hrr⟩ := ih4 r hr
                        refine ⟨w, pr, prov2, ?_, hmw, hrr⟩
                        have hne : invokedEvents
                            (FindPhoneUseCase.run map rl params now rest
                              store1).2.2 ≠ [] := by
                          intro hnil
                          rw [hnil] at hlast
                          simp at hlast
                        cases hcase : invokedEvents
                            (FindPhoneUseCase.run map rl params now rest
                              store1).2.2 with
                        | nil => exact absurd hcase hne
                        | cons a as =>
                            rw [hcase] at hlast
                            rw [List.getLast?_cons_cons]
                            exact hlast

/-- C6: the Waterfall Executor invokes adapters strictly in pipeline order
(the invoked names form an order-preserving sublist of the eligible list's
names), every invocation before the last returned no match, a returned
result is exactly the first non-null match with the winning adapter's
identity attached, the loop on an empty list invokes nothing and returns
null, and an empty eligible pipeline output makes `execute` return null with
no invocation. -/
theorem waterfall_order_and_first_match (map : ProviderMap) (rl : Bool)
    (params : PhoneSearchParams) (now : Nat) :
    (∀ (l : List ProviderConfig) (store : InMemoryRateLimitStore),
      (((invokedEvents
          (FindPhoneUseCase.run map rl params now l store).2.2).map
            Prod.fst).Sublist (l.map (·.name)))
      ∧ (∀ e ∈ (invokedEvents
            (FindPhoneUseCase.run map rl params now l store).2.2).dropLast,
          e.2.isFound = false)
      ∧ ((FindPhoneUseCase.run map rl params now l store).1.isSome = true ↔
          ∃ e ∈ invokedEvents
            (FindPhoneUseCase.run map rl params now l store).2.2,
            e.2.isFound = true)
      ∧ (∀ r, (FindPhoneUseCase.run map rl params now l store).1 = some r →
          ∃ w pr prov,
            (invokedEvents
              (FindPhoneUseCase.run map rl params now l store).2.2).getLast? =
                some (w, .found pr)
            ∧ map w = some prov
            ∧ r = ⟨pr.phone, prov.name, pr.countryCode⟩))
    ∧ (∀ store, FindPhoneUseCase.run map rl params now [] store =
        (none, store, []))
    ∧ (∀ configs store ctx,
        ProviderSelectionPipeline.execute store configs ctx now = [] →
        FindPhoneUseCase.execute map rl configs store ctx params now =
          (none, store, [])) := by
  refine ⟨run_waterfall_props map rl params now, fun store => rfl, ?_⟩
  intro configs store ctx h
  simp [FindPhoneUseCase.execute, h]

/-- Concrete instance of `waterfall_order_and_first_match`: with no
configured providers the executor invokes no adapter and returns null. -/
theorem waterfall_order_and_first_match_witness :
    FindPhoneUseCase.execute (fun _ => none) true []
        InMemoryRateLimitStore.empty ⟨none⟩ ⟨none, none, none, none⟩ 0 =
      (none, InMemoryRateLimitStore.empty, []) :=
  (waterfall_order_and_first_match (fun _ => none) true
    ⟨none, none, none, none⟩ 0).2.2 [] InMemoryRateLimitStore.empty ⟨none⟩ rfl

/-! ## Lemmas about rate-limit consumption along the waterfall -/

lemma string_prefix_cancel (p a b : String) (h : p ++ a = p ++ b) : a = b := by
  have hd := congrArg String.data h
  simp only [String.data_append] at hd
  exact String.ext (List.append_cancel_left hd)

lemma string_suffix_cancel (a b t : String) (hlen : a.length = b.length)
    (h : a ++ t = b ++ t) : a = b := by
  have hd := congrArg String.data h
  simp only [String.data_append] at hd
  exact String.ext (List.append_inj hd hlen).1

lemma rateLimitKey_inj (n1 n2 : ProviderName) (now : Nat)
    (h : rateLimitKey n1 now = rateLimitKey n2 now) : n1 = n2 := by
  rw [rateLimitKey, rateLimitKey] at h
  have hL := congrArg String.length h
  simp only [String.length_append] at hL
  have hlen : ("provider:" ++ n1.str ++ ":").length =
      ("provider:" ++ n2.str ++ ":").length := by
    simp only [String.length_append]
    omega
  have h1 := string_suffix_cancel _ _ _ hlen h
  have h2 : n1.str ++ ":" = n2.str ++ ":" := by
    apply string_prefix_cancel "provider:"
    simpa [String.append_assoc] using h1
  have h3 : n1.str = n2.str := by
    apply string_suffix_cancel _ _ ":" ?_ h2
    have := congrArg String.length h2
    simp only [String.length_append] at this
    omega
  cases n1 <;> cases n2 <;> first
    | rfl
    | exact absurd h3 (by decide)

lemma consumeRateLimit_store_frame (store : InMemoryRateLimitStore)
    (c : ProviderConfig) (now : Nat) (k2 : String)
    (hk : k2 ≠ rateLimitKey c.name now) :
    (RateLimitProviderFilter.consumeRateLimit store c now).2.store k2 =
      store.store k2 := by
  cases hrl : c.rateLimit with
  | none => simp [RateLimitProviderFilter.consumeRateLimit, hrl]
  | some rl =>
      rw [RateLimitProviderFilter.consumeRateLimit, hrl]
      simp only [InMemoryRateLimitStore.tryConsume]
      split <;> simp [InMemoryRateLimitStore.set, hk]

lemma run_store_frame (map : ProviderMap) (params : PhoneSearchParams)
    (now : Nat) :
    ∀ (l : List ProviderConfig) (store : InMemoryRateLimitStore) (k2 : String),
    (∀ c ∈ l, k2 ≠ rateLimitKey c.name now) →
    (FindPhoneUseCase.run map true params now l store).2.1.store k2 =
      store.store k2 := by
  intro l
  induction l with
  | nil => intro store k2 _; rfl
  | cons c rest ih =>
      intro store k2 hk
      have hkc : k2 ≠ rateLimitKey c.name now :=
        hk c (List.mem_cons_self _ _)
      have hkrest : ∀ c2 ∈ rest, k2 ≠ rateLimitKey c2.name now :=
        fun c2 h2 => hk c2 (List.mem_cons_of_mem _ h2)
      rw [FindPhoneUseCase.run]
      cases hme : map c.name with
      | none => exact ih store k2 hkrest
      | some prov =>
          simp only [if_pos]
          have hframe :
              (RateLimitProviderFilter.consumeRateLimit store c now).2.store k2 =
                store.store k2 :=
            consumeRateLimit_store_frame store c now k2 hkc
          cases hcon : RateLimitProviderFilter.consumeRateLimit store c now with
          | mk allowed store1 =>
              rw [hcon] at hframe
              cases allowed with
              | false =>
                  simp only [Bool.false_eq_true, reduceIte]
                  rw [ih store1 k2 hkrest]
                  exact hframe
              | true =>
                  simp only [reduceIte]
                  cases hout : prov.findPhone params with
                  | found pr => exact hframe
                  | noMatch =>
                      rw [ih store1 k2 hkrest]
                      exact hframe
                  | threw msg =>
                      rw [ih store1 k2 hkrest]
                      exact hframe

lemma consumeRateLimit_fresh (store : InMemoryRateLimitStore)
    (c : ProviderConfig) (now : Nat) (rl : RateLimitConfig)
    (hrl : c.rateLimit = some rl) (h1 : 1 ≤ rl.maxRequestsPerHour)
    (hfresh : store.store (rateLimitKey c.name now) = none) :
    RateLimitProviderFilter.consumeRateLimit store c now =
      (true, store.set (rateLimitKey c.name now) (some ⟨[now]⟩)) := by
  rw [RateLimitProviderFilter.consumeRateLimit, hrl]
  simp only [InMemoryRateLimitStore.tryConsume, hfresh, Option.getD_none,
    List.filter_nil, List.length_nil, Nat.le_zero, List.nil_append]
  rw [if_neg (by omega)]

lemma run_consume_take (map : ProviderMap) (params : PhoneSearchParams)
    (now : Nat) :
    ∀ (l : List ProviderConfig) (store : InMemoryRateLimitStore),
    (∀ c ∈ l, (map c.name).isSome = true) →
    ∃ k, k ≤ l.length ∧
      consumedNames (FindPhoneUseCase.run map true params now l store).2.2 =
        (l.take k).map (·.name) ∧
      ((FindPhoneUseCase.run map true params now l store).1 = none →
        k = l.length) := by
  intro l
  induction l with
  | nil =>
      intro store _
      exact ⟨0, Nat.le_refl 0, rfl, fun _ => rfl⟩
  | cons c rest ih =>
      intro store hmap
      have hc : (map c.name).isSome = true := hmap c (List.mem_cons_self _ _)
      obtain ⟨prov, hme⟩ := Option.isSome_iff_exists.mp hc
      have hrest : ∀ c2 ∈ rest, (map c2.name).isSome = true :=
        fun c2 h2 => hmap c2 (List.mem_cons_of_mem _ h2)
      rw [FindPhoneUseCase.run, hme]
      simp only
      cases hcon : RateLimitProviderFilter.consumeRateLimit store c now with
      | mk allowed store1 =>
          simp only [if_pos]
          cases allowed with
          | false =>
              obtain ⟨k, hk, hnames, himpl⟩ := ih store1 hrest
              refine ⟨k + 1, by simpa using Nat.succ_le_succ hk, ?_, ?_⟩
              · simp [consumedNames, hnames, List.take_succ_cons]
              · intro hnone
                simp only [Bool.false_eq_true, reduceIte] at hnone
                simp [himpl hnone]
          | true =>
              simp only [reduceIte]
              cases hout : prov.findPhone params with
              | found pr =>
                  refine ⟨1, by simp, ?_, ?_⟩
                  · simp [consumedNames, List.take_succ_cons]
                  · intro hnone
                    simp at hnone
              | noMatch =>
                  obtain ⟨k, hk, hnames, himpl⟩ := ih store1 hrest
                  refine ⟨k + 1, by simpa using Nat.succ_le_succ hk, ?_, ?_⟩
                  · simp [consumedNames, hnames, List.take_succ_cons]
                  · intro hnone
                    simp only at hnone
                    simp [himpl hnone]
              | threw msg =>
                  obtain ⟨k, hk, hnames, himpl⟩ := ih store1 hrest
                  refine ⟨k + 1, by simpa using Nat.succ_le_succ hk, ?_, ?_⟩
                  · simp [consumedNames, hnames, List.take_succ_cons]
                  · intro hnone
                    simp only at hnone
                    simp [himpl hnone]

lemma run_scenarioC (map : ProviderMap) (params : PhoneSearchParams)
    (now : Nat) :
    ∀ (l : List ProviderConfig) (store : InMemoryRateLimitStore),
    (∀ c ∈ l, (map c.name).isSome = true) →
    (∀ c ∈ l, ∀ prov, map c.name = some prov →
      ∃ m, prov.findPhone params = .threw m) →
    (∀ c ∈ l, store.store (rateLimitKey c.name now) = none) →
    (∀ c ∈ l, ∃ rl, c.rateLimit = some rl ∧ 1 ≤ rl.maxRequestsPerHour) →
    (l.map (·.name)).Nodup →
    (FindPhoneUseCase.run map true params now l store).1 = none
    ∧ ∀ c ∈ l,
        (FindPhoneUseCase.run map true params now l store).2.1.getCount
          (rateLimitKey c.name now) = 1 := by
  intro l
  induction l with
  | nil =>
      intro store _ _ _ _ _
      exact ⟨rfl, by simp⟩
  | cons c rest ih =>
      intro store hmap hthrow hfresh hlim hnodup
      have hc : (map c.name).isSome = true := hmap c (List.mem_cons_self _ _)
      obtain ⟨prov, hme⟩ := Option.isSome_iff_exists.mp hc
      obtain ⟨m, hm⟩ := hthrow c (List.mem_cons_self _ _) prov hme
      obtain ⟨rl, hrl, hrl1⟩ := hlim c (List.mem_cons_self _ _)
      have hconsume := consumeRateLimit_fresh store c now rl hrl hrl1
        (hfresh c (List.mem_cons_self _ _))
      have hnamene : ∀ c2 ∈ rest, c2.name ≠ c.name := by
        intro c2 h2 heq
        rw [List.map_cons, List.nodup_cons] at hnodup
        apply hnodup.1
        rw [← heq]
        exact List.mem_map_of_mem (·.name) h2
      have hkeyne : ∀ c2 ∈ rest,
          rateLimitKey c2.name now ≠ rateLimitKey c.name now := by
        intro c2 h2 hkeq
        exact hnamene c2 h2 (rateLimitKey_inj _ _ _ hkeq)
      have hfresh2 : ∀ c2 ∈ rest,
          (store.set (rateLimitKey c.name now)
            (some ⟨[now]⟩)).store (rateLimitKey c2.name now) = none := by
        intro c2 h2
        rw [InMemoryRateLimitStore.set]
        simp only
        rw [if_neg (hkeyne c2 h2)]
        exact hfresh c2 (List.mem_cons_of_mem _ h2)
      have ihr := ih (store.set (rateLimitKey c.name now) (some ⟨[now]⟩))
        (fun c2 h2 => hmap c2 (List.mem_cons_of_mem _ h2))
        (fun c2 h2 => hthrow c2 (List.mem_cons_of_mem _ h2))
        hfresh2
        (fun c2 h2 => hlim c2 (List.mem_cons_of_mem _ h2))
        (by rw [List.map_cons, List.nodup_cons] at hnodup; exact hnodup.2)
      rw [FindPhoneUseCase.run, hme]
      simp only [reduceIte, hconsume, hm]
      refine ⟨ihr.1, ?_⟩
      intro c2 h2
      rcases List.mem_cons.mp h2 with rfl | h3
      · have hframe := run_store_frame map params now rest
          (store.set (rateLimitKey c2.name now) (some ⟨[now]⟩))
          (rateLimitKey c2.name now)
          (fun c3 h3 => (hkeyne c3 h3).symm)
        rw [InMemoryRateLimitStore.getCount, hframe,
          InMemoryRateLimitStore.set]
        simp
      · exact ihr.2 c2 h3

/-- C7: along the waterfall with the rate-limit filter configured, the
consumption attempts are exactly one per provider reached, in list order
(the consumed names are the names of a prefix of the eligible list), all
providers are reached when no match is returned, and in the all-adapters-
throw scenario on fresh limited providers with distinct names the executor
returns null with every provider's hour-bucket counter at exactly 1 —
errored providers keep their consumed slot, unreached providers consume
nothing. -/
theorem waterfall_consumes_exactly_once_per_reached_provider
    (map : ProviderMap) (params : PhoneSearchParams) (now : Nat)
    (l : List ProviderConfig) (store : InMemoryRateLimitStore)
    (hmap : ∀ c ∈ l, (map c.name).isSome = true) :
    (∃ k, k ≤ l.length ∧
      consumedNames (FindPhoneUseCase.run map true params now l store).2.2 =
        (l.take k).map (·.name) ∧
      ((FindPhoneUseCase.run map true params now l store).1 = none →
        k = l.length))
    ∧ ((∀ c ∈ l, ∀ prov, map c.name = some prov →
          ∃ m, prov.findPhone params = .threw m) →
        (∀ c ∈ l, store.store (rateLimitKey c.name now) = none) →
        (∀ c ∈ l, ∃ rl, c.rateLimit = some rl ∧ 1 ≤ rl.maxRequestsPerHour) →
        (l.map (·.name)).Nodup →
        (FindPhoneUseCase.run map true params now l store).1 = none
        ∧ ∀ c ∈ l,
            (FindPhoneUseCase.run map true params now l store).2.1.getCount
              (rateLimitKey c.name now) = 1) :=
  ⟨run_consume_take map params now l store hmap,
   fun hthrow hfresh hlim hnodup =>
     run_scenarioC map params now l store hmap hthrow hfresh hlim hnodup⟩

/-- Two-provider adapter map whose adapters always throw, for the scenario-C
witness. -/
def throwingMap : ProviderMap := fun n =>
  match n with
  | .orionConnect => some ⟨.orionConnect, fun _ => .threw "Orion Error"⟩
  | .astraDialer => some ⟨.astraDialer, fun _ => .threw "Astra Error"⟩
  | .nimbusLookup => none

/-- Concrete instance of
`waterfall_consumes_exactly_once_per_reached_provider`: two fresh rate-limited
providers whose adapters both throw leave a null result and both hour-bucket
counters at exactly 1. -/
theorem waterfall_consumes_exactly_once_witness :
    (FindPhoneUseCase.run throwingMap true ⟨none, none, none, none⟩ 0
        [⟨.orionConnect, true, 10, some ⟨1⟩, none⟩,
         ⟨.astraDialer, true, 5, some ⟨100⟩, none⟩]
        InMemoryRateLimitStore.empty).1 = none
    ∧ ∀ c ∈ [ProviderConfig.mk .orionConnect true 10 (some ⟨1⟩) none,
             ProviderConfig.mk .astraDialer true 5 (some ⟨100⟩) none],
        (FindPhoneUseCase.run throwingMap true ⟨none, none, none, none⟩ 0
          [⟨.orionConnect, true, 10, some ⟨1⟩, none⟩,
           ⟨.astraDialer, true, 5, some ⟨100⟩, none⟩]
          InMemoryRateLimitStore.empty).2.1.getCount
            (rateLimitKey c.name 0) = 1 :=
  (waterfall_consumes_exactly_once_per_reached_provider throwingMap
      ⟨none, none, none, none⟩ 0
      [⟨.orionConnect, true, 10, some ⟨1⟩, none⟩,
       ⟨.astraDialer, true, 5, some ⟨100⟩, none⟩]
      InMemoryRateLimitStore.empty (by decide)).2
    (by
      intro c hc prov hprov
      rcases List.mem_cons.mp hc with rfl | hc2
      · exact ⟨"Orion Error", by simp [throwingMap] at hprov; simp [← hprov]⟩
      · rcases List.mem_cons.mp hc2 with rfl | hc3
        · exact ⟨"Astra Error", by simp [throwingMap] at hprov; simp [← hprov]⟩
        · simp at hc3)
    (fun c _ => rfl)
    (by
      intro c hc
      rcases List.mem_cons.mp hc with rfl | hc2
      · exact ⟨⟨1⟩, rfl, by decide⟩
      · rcases List.mem_cons.mp hc2 with rfl | hc3
        · exact ⟨⟨100⟩, rfl, by decide⟩
        · simp at hc3)
    (by decide)

/-- C8: the executor in the exception monad never lets an error escape: for
every provider map (including adapters that throw on every input), provider
list, store and context, `runE`/`executeE` return `.ok` — the caller receives
a match or null, never a provider-instability exception. -/
theorem waterfall_no_error_propagation (map : ProviderMap) (rl : Bool)
    (params : PhoneSearchParams) (now : Nat) :
    (∀ (l : List ProviderConfig) (store : InMemoryRateLimitStore),
      ∃ v, FindPhoneUseCase.runE map rl params now l store = .ok v)
    ∧ (∀ configs store ctx,
        ∃ v, FindPhoneUseCase.executeE map rl configs store ctx params now =
          .ok v) := by
  have hrun : ∀ (l : List ProviderConfig) (store : InMemoryRateLimitStore),
      ∃ v, FindPhoneUseCase.runE map rl params now l store = .ok v := by
    intro l
    induction l with
    | nil => intro store; exact ⟨(none, store), rfl⟩
    | cons c rest ih =>
        intro store
        rw [FindPhoneUseCase.runE]
        cases hme : map c.name with
        | none => exact ih store
        | some prov =>
            simp only
            cases hcon : (if rl then
                RateLimitProviderFilter.consumeRateLimit store c now
              else (true, store)) with
            | mk allowed store1 =>
                cases allowed with
                | false => simpa using ih store1
                | true =>
                    simp only [reduceIte]
                    rw [IPhoneProvider.findPhoneE]
                    cases hout : prov.findPhone params with
                    | found pr => exact ⟨_, rfl⟩
                    | noMatch => exact ih store1
                    | threw msg => exact ih store1
  refine ⟨hrun, ?_⟩
  intro configs store ctx
  rw [FindPhoneUseCase.executeE]
  by_cases hav : (ProviderSelectionPipeline.execute store configs ctx
      now).isEmpty = true
  · exact ⟨(none, store), by rw [if_pos hav]⟩
  · rw [if_neg hav]
    exact hrun _ store

/-- C9: whenever a Redis command issued by `tryConsume` throws (the third
component of `tryConsumeFallible` records a caught backend error), the call
returns `true` — the store fails open instead of propagating the error, even
when the key is already at its limit. -/
theorem redisTryConsume_fails_open (errorAt : Option Nat) (st : RedisState)
    (key : String) (limit : Nat) (windowSeconds : Nat) (now : Nat)
    (herr : (RedisRateLimitStore.tryConsumeFallible errorAt st key limit
      windowSeconds now).2.2 = true) :
    (RedisRateLimitStore.tryConsumeFallible errorAt st key limit
      windowSeconds now).1 = true := by
  by_cases h0 : errorAt = some 0
  · simp [RedisRateLimitStore.tryConsumeFallible, h0]
  · by_cases h1 : errorAt = some 1
    · simp [RedisRateLimitStore.tryConsumeFallible, h0, h1]
    · by_cases hc : (st.zremrangebyscore key 0 (windowStartOf now
          windowSeconds) now).zcard key now < limit
      · by_cases h2 : errorAt = some 2
        · simp [RedisRateLimitStore.tryConsumeFallible, h0, h1, hc, h2]
        · by_cases h3 : errorAt = some 3
          · simp [RedisRateLimitStore.tryConsumeFallible, h0, h1, hc, h2, h3]
          · simp [RedisRateLimitStore.tryConsumeFallible, h0, h1, hc, h2,
              h3] at herr
      · simp [RedisRateLimitStore.tryConsumeFallible, h0, h1, hc] at herr

/-- Concrete instance of `redisTryConsume_fails_open`: a ZCARD failure on a
key already at its limit still yields `true`. -/
theorem redisTryConsume_fails_open_witness :
    (RedisRateLimitStore.tryConsumeFallible (some 1)
        (RedisRateLimitStore.tryConsume RedisState.empty "k" 1 3600 1000).2
        "k" 1 3600 2000).2.2 = true
    ∧ (RedisRateLimitStore.tryConsumeFallible (some 1)
        (RedisRateLimitStore.tryConsume RedisState.empty "k" 1 3600 1000).2
        "k" 1 3600 2000).1 = true :=
  ⟨by decide,
   redisTryConsume_fails_open (some 1)
     (RedisRateLimitStore.tryConsume RedisState.empty "k" 1 3600 1000).2
     "k" 1 3600 2000 (by decide)⟩

/-- `getCount` of the pipelined Redis variant (src/unnamed/part_006): also a
bare `ZCARD`. -/
def RedisRateLimitStorePipelined.getCount (st : RedisState) (key : String)
    (now : Nat) : Nat :=
  st.zcard key now

/-- C1 counterexample: on the pipelined Redis `tryConsume`
(src/unnamed/part_006), a denied call still records a consumption: with
limit 1 and one prior consumption, the second call returns `false` yet the
stored set grows from 1 to 2 members — matching the store's own integration
test, which expects count 6 after 5 allowed + 1 blocked calls. -/
theorem tryConsume_denied_records_consumption_counterexample :
    (RedisRateLimitStorePipelined.tryConsume
        (RedisRateLimitStorePipelined.tryConsume RedisState.empty
          "k" 1 3600 1000).2 "k" 1 3600 2000).1 = false
    ∧ RedisRateLimitStorePipelined.getCount
        (RedisRateLimitStorePipelined.tryConsume RedisState.empty
          "k" 1 3600 1000).2 "k" 2000 = 1
    ∧ RedisRateLimitStorePipelined.getCount
        (RedisRateLimitStorePipelined.tryConsume
          (RedisRateLimitStorePipelined.tryConsume RedisState.empty
            "k" 1 3600 1000).2 "k" 1 3600 2000).2 "k" 2000 = 2 := by
  decide

/-- C1 amended: the in-memory `tryConsume` — a single atomic step — allows
exactly when the window-pruned count is under the limit, appends the new
timestamp exactly when it allows, leaves the window-pruned record unchanged
when it denies, and touches no other key. -/
theorem inMemoryTryConsume_records_iff_under_limit
    (s : InMemoryRateLimitStore) (key : String) (limit : Nat)
    (windowSeconds : Nat) (now : Nat) :
    ((s.tryConsume key limit windowSeconds now).1 = true ↔
      (((s.store key).getD ⟨[]⟩).timestamps.filter
        (tsInWindow (windowStartOf now windowSeconds))).length < limit)
    ∧ ((s.tryConsume key limit windowSeconds now).1 = false →
        (s.tryConsume key limit windowSeconds now).2.store key =
          some ⟨((s.store key).getD ⟨[]⟩).timestamps.filter
            (tsInWindow (windowStartOf now windowSeconds))⟩)
    ∧ ((s.tryConsume key limit windowSeconds now).1 = true →
        (s.tryConsume key limit windowSeconds now).2.store key =
          some ⟨(((s.store key).getD ⟨[]⟩).timestamps.filter
            (tsInWindow (windowStartOf now windowSeconds))) ++ [now]⟩)
    ∧ (∀ k2, k2 ≠ key →
        (s.tryConsume key limit windowSeconds now).2.store k2 =
          s.store k2) := by
  simp only [InMemoryRateLimitStore.tryConsume]
  by_cases hle : limit ≤
      (((s.store key).getD ⟨[]⟩).timestamps.filter
        (tsInWindow (windowStartOf now windowSeconds))).length
  · rw [if_pos hle]
    refine ⟨by constructor <;> intro h <;> [exact absurd h (by simp); omega],
      ?_, ?_, ?_⟩
    · intro _
      simp [InMemoryRateLimitStore.set]
    · intro h
      simp at h
    · intro k2 hk2
      simp [InMemoryRateLimitStore.set, hk2]
  · rw [if_neg hle]
    refine ⟨by constructor <;> intro h <;> [omega; rfl], ?_, ?_, ?_⟩
    · intro h
      simp at h
    · intro _
      simp [InMemoryRateLimitStore.set]
    · intro k2 hk2
      simp [InMemoryRateLimitStore.set, hk2]

/-- Concrete instance of `inMemoryTryConsume_records_iff_under_limit`: a
denied call on a full key leaves the pruned record unchanged. -/
theorem inMemoryTryConsume_records_iff_under_limit_witness :
    ((InMemoryRateLimitStore.empty.tryConsume "k" 1 3600 1000).2.tryConsume
        "k" 1 3600 2000).2.store "k" = some ⟨[1000]⟩ := by
  have h := (inMemoryTryConsume_records_iff_under_limit
    (InMemoryRateLimitStore.empty.tryConsume "k" 1 3600 1000).2
    "k" 1 3600 2000).2.1 (by decide)
  rw [h]
  decide

/-- C5 failing input: `getCount` is not window-pruned.  One consumption at
time 0 with a 10-second window; at read time 20000 the stored timestamp is
outside the trailing window (the claim requires count 0), yet `getCount`
returns 1 — it has no time parameter at all and counts stale entries. -/
theorem getCount_counts_expired_entries :
    (InMemoryRateLimitStore.empty.tryConsume "k" 10 10 0).2.getCount "k" = 1
    ∧ tsInWindow (windowStartOf 20000 10) 0 = false := by
  decide

/-- C3 failing schedule: two racing `tryConsume` calls on a fresh key with
limit 1 against the Redis store, interleaved so that both ZCARDs run before
either ZADD — both calls return `true`, so 2 > L = 1 succeed. -/
theorem redis_concurrent_consume_exceeds_limit :
    (tryConsumeInterleaved "k" 1 60 1000
        [true, false, true, false, true, true, false, false]
        RedisState.empty .atZrem .atZrem).1 = .done true
    ∧ (tryConsumeInterleaved "k" 1 60 1000
        [true, false, true, false, true, true, false, false]
        RedisState.empty .atZrem .atZrem).2.1 = .done true := by
  decide

/-- C2 counterexample: with `maxRequestsPerHour = 1`, two consumptions 1000
ms apart both succeed because they straddle an hour-bucket boundary and thus
use two independent keys; both timestamps lie inside the single trailing
3600-second window ending at the second call. -/
theorem hourBucket_boundary_burst_counterexample :
    (RateLimitProviderFilter.consumeRateLimit InMemoryRateLimitStore.empty
        ⟨.orionConnect, true, 10, some ⟨1⟩, none⟩ 3599000).1 = true
    ∧ (RateLimitProviderFilter.consumeRateLimit
        (RateLimitProviderFilter.consumeRateLimit InMemoryRateLimitStore.empty
          ⟨.orionConnect, true, 10, some ⟨1⟩, none⟩ 3599000).2
        ⟨.orionConnect, true, 10, some ⟨1⟩, none⟩ 3600000).1 = true
    ∧ tsInWindow (windowStartOf 3600000 3600) 3599000 = true := by
  decide

/-! ## The per-key sliding-window bound -/

/-- The timestamp list a key currently stores (empty for a missing key). -/
def entryTimestamps (s : InMemoryRateLimitStore) (key : String) :
    List Nat :=
  ((s.store key).getD ⟨[]⟩).timestamps

/-- Whether `s` lies in the trailing window `(t - W·1000, t]`. -/
def inTrailingWindow (t : Nat) (W : Nat) (s : Nat) : Bool :=
  tsInWindow (windowStartOf t W) s && decide (s ≤ t)

lemma tryConsume_cases (s : InMemoryRateLimitStore) (key : String)
    (limit W : Nat) (now : Nat) :
    (s.tryConsume key limit W now).1 =
      decide (((entryTimestamps s key).filter
        (tsInWindow (windowStartOf now W))).length < limit)
    ∧ entryTimestamps (s.tryConsume key limit W now).2 key =
        ((entryTimestamps s key).filter (tsInWindow (windowStartOf now W)))
          ++ (if ((entryTimestamps s key).filter
                (tsInWindow (windowStartOf now W))).length < limit
              then [now] else []) := by
  simp only [InMemoryRateLimitStore.tryConsume, entryTimestamps]
  by_cases hle : limit ≤
      (((s.store key).getD ⟨[]⟩).timestamps.filter
        (tsInWindow (windowStartOf now W))).length
  · rw [if_pos hle]
    refine ⟨by simp; omega, ?_⟩
    rw [if_neg (by omega)]
    simp [InMemoryRateLimitStore.set]
  · rw [if_neg hle]
    refine ⟨by simp; omega, ?_⟩
    rw [if_pos (by omega)]
    simp [InMemoryRateLimitStore.set]

lemma length_filter_mono {α : Type} (l : List α) (p q : α → Bool)
    (h : ∀ x ∈ l, p x = true → q x = true) :
    (l.filter p).length ≤ (l.filter q).length := by
  induction l with
  | nil => simp
  | cons a l ih =>
      have ih2 := ih fun x hx => h x (List.mem_cons_of_mem _ hx)
      by_cases hp : p a = true
      · rw [List.filter_cons, if_pos hp, List.filter_cons,
          if_pos (h a (List.mem_cons_self _ _) hp)]
        simpa using ih2
      · rw [List.filter_cons, if_neg (by simpa using hp), List.filter_cons]
        by_cases hq : q a = true
        · rw [if_pos hq]
          exact le_trans ih2 (by simp)
        · rw [if_neg (by simpa using hq)]
          exact ih2

lemma tsInWindow_mono (tp t1 : Nat) (W : Nat) (x : Nat) (h : tp ≤ t1)
    (hx : tsInWindow (windowStartOf t1 W) x = true) :
    tsInWindow (windowStartOf tp W) x = true := by
  simp only [tsInWindow, windowStartOf, decide_eq_true_eq] at hx ⊢
  omega

lemma tsInWindow_self (t1 : Nat) (W : Nat) (hW : 0 < W) :
    tsInWindow (windowStartOf t1 W) t1 = true := by
  simp only [tsInWindow, windowStartOf, decide_eq_true_eq]
  omega

lemma consumeRun_window_bound_aux (key : String) (limit W : Nat)
    (hW : 0 < W) :
    ∀ (times : List Nat) (s : InMemoryRateLimitStore) (tp : Nat)
      (past : List Nat),
    entryTimestamps s key =
      past.filter (tsInWindow (windowStartOf tp W)) →
    (∀ x ∈ past, x ≤ tp) →
    List.Chain (· ≤ ·) tp times →
    (∀ t, (past.filter (inTrailingWindow t W)).length ≤ limit) →
    ∀ t, ((past ++ (consumeRun key limit W times s).2).filter
      (inTrailingWindow t W)).length ≤ limit := by
  intro times
  induction times with
  | nil =>
      intro s tp past _ _ _ hwin t
      simpa [consumeRun] using hwin t
  | cons t1 rest ih =>
      intro s tp past hentry hbound hchain hwin t
      rw [List.chain_cons] at hchain
      obtain ⟨htp1, hchain2⟩ := hchain
      have hstep := tryConsume_cases s key limit W t1
      have hprune : (entryTimestamps s key).filter
          (tsInWindow (windowStartOf t1 W)) =
          past.filter (tsInWindow (windowStartOf t1 W)) := by
        rw [hentry, List.filter_filter]
        apply List.filter_congr
        intro x _
        cases hx1 : tsInWindow (windowStartOf t1 W) x
        · simp
        · simp [tsInWindow_mono tp t1 W x htp1 hx1]
      rw [consumeRun]
      by_cases hallow :
          (past.filter (tsInWindow (windowStartOf t1 W))).length < limit
      · have hres : (s.tryConsume key limit W t1).1 = true := by
          rw [hstep.1, hprune]
          simpa using hallow
        have hentry2 : entryTimestamps (s.tryConsume key limit W t1).2 key =
            (past ++ [t1]).filter (tsInWindow (windowStartOf t1 W)) := by
          rw [hstep.2, hprune, if_pos hallow, List.filter_append]
          simp [List.filter_cons, tsInWindow_self t1 W hW]
        have hbound2 : ∀ x ∈ past ++ [t1], x ≤ t1 := by
          intro x hx
          rcases List.mem_append.mp hx with hx | hx
          · exact le_trans (hbound x hx) htp1
          · simpa using List.mem_singleton.mp hx ▸ le_refl t1
        have hwin2 : ∀ u,
            ((past ++ [t1]).filter (inTrailingWindow u W)).length ≤ limit := by
          intro u
          rw [List.filter_append]
          by_cases ht1 : inTrailingWindow u W t1 = true
          · have ht1le : t1 ≤ u := by
              have := ht1
              simp only [inTrailingWindow, Bool.and_eq_true,
                decide_eq_true_eq] at this
              exact this.2
            have hmono : ∀ x ∈ past, inTrailingWindow u W x = true →
                tsInWindow (windowStartOf t1 W) x = true := by
              intro x _ hxw
              simp only [inTrailingWindow, tsInWindow, windowStartOf,
                Bool.and_eq_true, decide_eq_true_eq] at hxw ⊢
              omega
            have hlen := length_filter_mono past (inTrailingWindow u W)
              (tsInWindow (windowStartOf t1 W)) hmono
            rw [List.length_append]
            have : (List.filter (inTrailingWindow u W) [t1]).length ≤ 1 := by
              simp [List.filter_cons]
              split <;> simp
            omega
          · have : List.filter (inTrailingWindow u W) [t1] = [] := by
              simp [List.filter_cons, ht1]
            rw [this]
            simpa using hwin u
        have hfinal := ih (s.tryConsume key limit W t1).2 t1 (past ++ [t1])
          hentry2 hbound2 hchain2 hwin2 t
        rw [hres]
        simpa [List.append_assoc] using hfinal
      · have hres : (s.tryConsume key limit W t1).1 = false := by
          rw [hstep.1, hprune]
          simpa using hallow
        have hentry2 : entryTimestamps (s.tryConsume key limit W t1).2 key =
            past.filter (tsInWindow (windowStartOf t1 W)) := by
          rw [hstep.2, hprune, if_neg hallow, List.append_nil]
        have hbound2 : ∀ x ∈ past, x ≤ t1 :=
          fun x hx => le_trans (hbound x hx) htp1
        have hfinal := ih (s.tryConsume key limit W t1).2 t1 past
          hentry2 hbound2 hchain2 hwin t
        rw [hres]
        simpa using hfinal

/-- C2 amended: per key, the sliding window does bound consumptions — for
any nondecreasing sequence of `tryConsume` timestamps against one key with
limit `limit` and positive window `W`, the successful consumptions falling
in any trailing window of `W` seconds number at most `limit`.  (The 2×N
boundary burst of the counterexample is possible only because
`consumeRateLimit` switches to a fresh hour-bucketed key.) -/
theorem slidingWindow_per_key_bound (key : String) (limit W : Nat)
    (times : List Nat) (hW : 0 < W)
    (hsort : times.Chain' (· ≤ ·)) (t : Nat) :
    ((consumeRun key limit W times InMemoryRateLimitStore.empty).2.filter
      (inTrailingWindow t W)).length ≤ limit := by
  have hchain : List.Chain (· ≤ ·) 0 times := by
    cases times with
    | nil => exact List.Chain.nil
    | cons a l => exact List.Chain.cons (Nat.zero_le a) hsort
  have := consumeRun_window_bound_aux key limit W hW times
    InMemoryRateLimitStore.empty 0 [] rfl (by simp) hchain (by simp) t
  simpa using this

/-- Concrete instance of `slidingWindow_per_key_bound`: three same-moment
consumptions with limit 2 never show more than 2 successes in any window. -/
theorem slidingWindow_per_key_bound_witness :
    ((consumeRun "k" 2 10 [1000, 1000, 1000]
        InMemoryRateLimitStore.empty).2.filter
      (inTrailingWindow 1000 10)).length ≤ 2 :=
  slidingWindow_per_key_bound "k" 2 10 [1000, 1000, 1000] (by decide)
    (by simp [List.chain'_cons]) 1000

/-! ## Observational comparison of the two stores -/

/-- C4 counterexample: the two stores are not observationally equivalent.
First run: three same-millisecond `tryConsume` calls with limit 2 — the
in-memory store answers `[true, true, false]`, Redis answers
`[true, true, true]` because `ZADD key now ${now}` deduplicates the member.
Second run: a consumption followed by a `getCount` 20 seconds later with a
10-second window — the in-memory store still reports 1 (stale entry), Redis
reports 0 (the key's TTL has expired). -/
theorem store_equivalence_counterexample :
    InMemoryRateLimitStore.runOps
        [(.tryConsume "k" 2 3600, 1000), (.tryConsume "k" 2 3600, 1000),
         (.tryConsume "k" 2 3600, 1000)] InMemoryRateLimitStore.empty ≠
      RedisRateLimitStore.runOps
        [(.tryConsume "k" 2 3600, 1000), (.tryConsume "k" 2 3600, 1000),
         (.tryConsume "k" 2 3600, 1000)] RedisState.empty
    ∧ InMemoryRateLimitStore.runOps
        [(.tryConsume "k" 2 10, 1000), (.getCount "k", 20001)]
        InMemoryRateLimitStore.empty ≠
      RedisRateLimitStore.runOps
        [(.tryConsume "k" 2 10, 1000), (.getCount "k", 20001)]
        RedisState.empty := by
  decide

/-- All entries of `l` are already expired at time `t` for window `W`. -/
def AllExpired (l : List Nat) (t W : Nat) : Prop :=
  ∀ x ∈ l, (x : Int) ≤ (t : Int) - (W : Int) * 1000

/-- Correspondence between one key's in-memory entry and its Redis entry at
time `t` (window `W` fixed across the run): missing together; or the
in-memory record fully expired while Redis holds nothing; or both live with
equal timestamp lists and a TTL covering every member; or the Redis TTL has
fired while every in-memory timestamp is expired.  Redis never holds a key
the in-memory store lacks. -/
def EntryRel (W t : Nat) :
    Option RateLimitEntry → Option RedisEntry → Prop
  | none, none => True
  | some e, none => AllExpired e.timestamps t W
  | some e, some r =>
      (∀ x ∈ e.timestamps, x ≤ t) ∧
      ∃ d, r.expireAt = some d ∧
        ((t < d ∧ e.timestamps = r.members ∧
            ∀ x ∈ r.members, x + W * 1000 ≤ d)
         ∨ (d ≤ t ∧ AllExpired e.timestamps t W))
  | none, some _ => False

/-- Keyspace-wide correspondence. -/
def StoresRel (W t : Nat) (m : InMemoryRateLimitStore) (r : RedisState) :
    Prop :=
  ∀ k, EntryRel W t (m.store k) (r.store k)

lemma allExpired_mono {l : List Nat} {t t2 W : Nat} (h : t ≤ t2)
    (ha : AllExpired l t W) : AllExpired l t2 W := by
  intro x hx
  have := ha x hx
  omega

lemma entryRel_mono {W t t2 : Nat} (h : t ≤ t2) :
    ∀ {me : Option RateLimitEntry} {re : Option RedisEntry},
    EntryRel W t me re → EntryRel W t2 me re := by
  intro me re hrel
  match me, re with
  | none, none => trivial
  | some e, none => exact allExpired_mono h hrel
  | none, some r => exact absurd hrel (by simp [EntryRel])
  | some e, some r =>
      obtain ⟨hb, d, hd, hcase⟩ := hrel
      refine ⟨fun x hx => le_trans (hb x hx) h, d, hd, ?_⟩
      rcases hcase with ⟨hlt, heq, hmem⟩ | ⟨hle, hexp⟩
      · by_cases h2 : t2 < d
        · exact Or.inl ⟨h2, heq, hmem⟩
        · refine Or.inr ⟨by omega, ?_⟩
          intro x hx
          have := hmem x (heq ▸ hx)
          omega
      · exact Or.inr ⟨le_trans hle h, allExpired_mono h hexp⟩

lemma storesRel_mono {W t t2 : Nat} {m : InMemoryRateLimitStore}
    {r : RedisState} (h : t ≤ t2) (hrel : StoresRel W t m r) :
    StoresRel W t2 m r :=
  fun k => entryRel_mono h (hrel k)

/-! Frame lemmas: every store operation touches only its own key. -/

lemma RedisState.set_frame (st : RedisState) (k : String)
    (e : Option RedisEntry) (k2 : String) (h : k2 ≠ k) :
    (st.set k e).store k2 = st.store k2 := by
  simp [RedisState.set, h]

lemma RedisState.zrem_frame (st : RedisState) (k : String) (mn mx : Int)
    (t : Nat) (k2 : String) (h : k2 ≠ k) :
    (st.zremrangebyscore k mn mx t).store k2 = st.store k2 := by
  rw [RedisState.zremrangebyscore]
  cases st.live k t <;> simp [RedisState.set, h]

lemma RedisState.zadd_frame (st : RedisState) (k : String) (ts t : Nat)
    (k2 : String) (h : k2 ≠ k) :
    (st.zadd k ts t).store k2 = st.store k2 := by
  rw [RedisState.zadd]
  cases st.live k t <;> simp [RedisState.set, h]

lemma RedisState.expire_frame (st : RedisState) (k : String) (sec t : Nat)
    (k2 : String) (h : k2 ≠ k) :
    (st.expire k sec t).store k2 = st.store k2 := by
  rw [RedisState.expire]
  cases st.live k t <;> simp [RedisState.set, h]

lemma redis_tryConsume_frame (r : RedisState) (k : String) (limit W t : Nat)
    (k2 : String) (h : k2 ≠ k) :
    (RedisRateLimitStore.tryConsume r k limit W t).2.store k2 =
      r.store k2 := by
  rw [RedisRateLimitStore.tryConsume]
  split
  · rw [RedisState.expire_frame _ _ _ _ _ h, RedisState.zadd_frame _ _ _ _ _ h,
      RedisState.zrem_frame _ _ _ _ _ _ h]
  · rw [RedisState.zrem_frame _ _ _ _ _ _ h]

lemma inMemory_tryConsume_frame (s : InMemoryRateLimitStore) (k : String)
    (limit W t : Nat) (k2 : String) (h : k2 ≠ k) :
    (s.tryConsume k limit W t).2.store k2 = s.store k2 := by
  simp only [InMemoryRateLimitStore.tryConsume]
  split <;> simp [InMemoryRateLimitStore.set, h]

/-- Unfolding lemma for `zremrangebyscore`. -/
lemma RedisState.zremrangebyscore_eval (st : RedisState) (k : String)
    (mn mx : Int) (t : Nat) :
    st.zremrangebyscore k mn mx t =
      match st.live k t with
      | none => st.set k none
      | some e =>
          let ms := e.members.filter fun (ts : Nat) =>
            !(decide (mn ≤ (ts : Int)) && decide ((ts : Int) ≤ mx))
          st.set k (if ms.isEmpty then none else some ⟨ms, e.expireAt⟩) :=
  rfl

/-- Unfolding lemma for `zadd`. -/
lemma RedisState.zadd_eval (st : RedisState) (k : String) (ts t : Nat) :
    st.zadd k ts t =
      match st.live k t with
      | none => st.set k (some ⟨[ts], none⟩)
      | some e =>
          st.set k (some ⟨if e.members.contains ts then e.members
            else e.members ++ [ts], e.expireAt⟩) :=
  rfl

/-- Unfolding lemma for `expire`. -/
lemma RedisState.expire_eval (st : RedisState) (k : String) (sec t : Nat) :
    st.expire k sec t =
      match st.live k t with
      | none => st.set k none
      | some e => st.set k (some ⟨e.members, some (t + sec * 1000)⟩) :=
  rfl

/-- Unfolding lemma for `zcard`. -/
lemma RedisState.zcard_eval (st : RedisState) (k : String) (t : Nat) :
    st.zcard k t =
      match st.live k t with
      | some e => e.members.length
      | none => 0 :=
  rfl

/-- The ZREMRANGEBYSCORE predicate `¬(0 ≤ ts ∧ ts ≤ windowStart)` agrees
with the in-memory pruning predicate on natural timestamps. -/
lemma zremPred_eq (ws : Int) (ts : Nat) :
    (!(decide ((0 : Int) ≤ (ts : Int)) && decide ((ts : Int) ≤ ws))) =
      tsInWindow ws ts := by
  have h0 : (0 : Int) ≤ (ts : Int) := Int.natCast_nonneg ts
  rcases le_or_lt ((ts : Int)) ws with hle | hlt
  · simp [tsInWindow, h0, hle, not_lt.mpr hle]
  · simp [tsInWindow, h0, hlt, not_le.mpr hlt]

/-- ZREMRANGEBYSCORE with bounds `[0, ws]` keeps exactly the in-window
members. -/
lemma zrem_filter_eq (members : List Nat) (ws : Int) :
    (members.filter fun (ts : Nat) =>
      !(decide ((0 : Int) ≤ (ts : Int)) && decide ((ts : Int) ≤ ws))) =
    members.filter (tsInWindow ws) :=
  List.filter_congr fun x _ => zremPred_eq ws x

lemma inMemory_tryConsume_store (s : InMemoryRateLimitStore) (k : String)
    (limit W t : Nat) :
    (s.tryConsume k limit W t).2.store k =
      some ⟨(entryTimestamps s k).filter (tsInWindow (windowStartOf t W)) ++
        (if ((entryTimestamps s k).filter
              (tsInWindow (windowStartOf t W))).length < limit
         then [t] else [])⟩ := by
  simp only [InMemoryRateLimitStore.tryConsume, entryTimestamps]
  split
  · next hle => simp [InMemoryRateLimitStore.set, Nat.not_lt.mpr hle]
  · next hlt => simp [InMemoryRateLimitStore.set, Nat.not_le.mp hlt]

/-- Evaluation of the Redis `tryConsume` on a key that is absent or whose
TTL has fired. -/
lemma redis_tryConsume_of_dead (r : RedisState) (k : String)
    (limit W t : Nat) (hlive : r.live k t = none) :
    (RedisRateLimitStore.tryConsume r k limit W t).1 = decide (0 < limit)
    ∧ (RedisRateLimitStore.tryConsume r k limit W t).2.store k =
        (if 0 < limit
         then some ⟨[t], some (t + W * 1000)⟩ else none) := by
  have hst1 : r.zremrangebyscore k 0 (windowStartOf t W) t = r.set k none := by
    rw [RedisState.zremrangebyscore_eval, hlive]
  have hset_live : (r.set k none).live k t = none := by
    simp [RedisState.live, RedisState.set]
  have hcount : (r.set k none).zcard k t = 0 := by
    rw [RedisState.zcard_eval, hset_live]
  rw [RedisRateLimitStore.tryConsume, hst1, hcount]
  by_cases hlim : 0 < limit
  · rw [if_pos hlim]
    have hzadd : (r.set k none).zadd k t t =
        (r.set k none).set k (some ⟨[t], none⟩) := by
      rw [RedisState.zadd_eval, hset_live]
    have hlive2 : ((r.set k none).set k (some ⟨[t], none⟩)).live k t =
        some ⟨[t], none⟩ := by
      simp [RedisState.live, RedisState.set]
    simp only [hzadd, RedisState.expire_eval, hlive2]
    simp [RedisState.set, hlim]
  · rw [if_neg hlim]
    simp [RedisState.set, hlim]

/-- Evaluation of the Redis `tryConsume` on a live key whose members all
predate the call. -/
lemma redis_tryConsume_of_live (r : RedisState) (k : String)
    (limit W t : Nat) (members : List Nat) (d : Nat)
    (hst : r.store k = some ⟨members, some d⟩) (hd : t < d)
    (hmem : ∀ x ∈ members, x < t) :
    (RedisRateLimitStore.tryConsume r k limit W t).1 =
      decide ((members.filter (tsInWindow (windowStartOf t W))).length <
        limit)
    ∧ (RedisRateLimitStore.tryConsume r k limit W t).2.store k =
        (if (members.filter (tsInWindow (windowStartOf t W))).length < limit
         then some ⟨members.filter (tsInWindow (windowStartOf t W)) ++ [t],
           some (t + W * 1000)⟩
         else if (members.filter (tsInWindow (windowStartOf t W))).isEmpty
           then none
           else some ⟨members.filter (tsInWindow (windowStartOf t W)),
             some d⟩) := by
  have hlive : r.live k t = some ⟨members, some d⟩ := by
    simp [RedisState.live, hst, Nat.not_le.mpr hd]
  set ms := members.filter (tsInWindow (windowStartOf t W)) with hms
  have hst1 : r.zremrangebyscore k 0 (windowStartOf t W) t =
      r.set k (if ms.isEmpty then none else some ⟨ms, some d⟩) := by
    rw [RedisState.zremrangebyscore_eval, hlive]
    simp only [zrem_filter_eq, ← hms]
  have hmemms : ∀ x ∈ ms, x < t := by
    intro x hx
    exact hmem x (List.mem_of_mem_filter hx)
  by_cases hempty : ms.isEmpty
  · have hms_nil : ms = [] := List.isEmpty_iff.mp hempty
    rw [if_pos hempty] at hst1
    have hset_live : (r.set k none).live k t = none := by
      simp [RedisState.live, RedisState.set]
    have hcount : (r.set k none).zcard k t = 0 := by
      rw [RedisState.zcard_eval, hset_live]
    rw [RedisRateLimitStore.tryConsume, hst1, hcount, hms_nil]
    simp only [List.length_nil]
    by_cases hlim : 0 < limit
    · rw [if_pos hlim]
      have hzadd : (r.set k none).zadd k t t =
          (r.set k none).set k (some ⟨[t], none⟩) := by
        rw [RedisState.zadd_eval, hset_live]
      have hlive2 : ((r.set k none).set k (some ⟨[t], none⟩)).live k t =
          some ⟨[t], none⟩ := by
        simp [RedisState.live, RedisState.set]
      simp only [hzadd, RedisState.expire_eval, hlive2]
      simp [RedisState.set, hlim]
    · rw [if_neg hlim]
      rw [hms_nil] at hempty
      simp [RedisState.set, hlim, hempty]
  · rw [if_neg hempty] at hst1
    have hset_live : (r.set k (some ⟨ms, some d⟩)).live k t =
        some ⟨ms, some d⟩ := by
      simp [RedisState.live, RedisState.set, Nat.not_le.mpr hd]
    have hcount : (r.set k (some ⟨ms, some d⟩)).zcard k t = ms.length := by
      rw [RedisState.zcard_eval, hset_live]
    rw [RedisRateLimitStore.tryConsume, hst1, hcount]
    by_cases hlim : ms.length < limit
    · rw [if_pos hlim]
      have hnotmem : t ∉ ms := fun hin => absurd (hmemms t hin) (lt_irrefl t)
      have hzadd : (r.set k (some ⟨ms, some d⟩)).zadd k t t =
          (r.set k (some ⟨ms, some d⟩)).set k
            (some ⟨ms ++ [t], some d⟩) := by
        rw [RedisState.zadd_eval, hset_live]
        simp [hnotmem]
      have hlive2 : ((r.set k (some ⟨ms, some d⟩)).set k
          (some ⟨ms ++ [t], some d⟩)).live k t =
            some ⟨ms ++ [t], some d⟩ := by
        simp [RedisState.live, RedisState.set, Nat.not_le.mpr hd]
      simp only [hzadd, RedisState.expire_eval, hlive2]
      simp [RedisState.set, hlim]
    · rw [if_neg hlim]
      simp [RedisState.set, hlim, hempty]

lemma filter_tsInWindow_eq_nil {l : List Nat} {t W : Nat}
    (h : AllExpired l t W) :
    l.filter (tsInWindow (windowStartOf t W)) = [] := by
  rw [List.filter_eq_nil_iff]
  intro x hx
  have := h x hx
  simp only [tsInWindow, windowStartOf, decide_eq_true_eq]
  omega

lemma tryConsume_step_rel (W limit : Nat) (hW : 0 < W) (tp t : Nat)
    (htp : tp < t) (k : String) (m : InMemoryRateLimitStore) (r : RedisState)
    (hinv : StoresRel W tp m r) :
    (m.tryConsume k limit W t).1 =
      (RedisRateLimitStore.tryConsume r k limit W t).1
    ∧ StoresRel W t (m.tryConsume k limit W t).2
        (RedisRateLimitStore.tryConsume r k limit W t).2 := by
  have hk := hinv k
  have hmemres := (tryConsume_cases m k limit W t).1
  have hmemstore := inMemory_tryConsume_store m k limit W t
  have hother : ∀ k2, k2 ≠ k →
      EntryRel W t ((m.tryConsume k limit W t).2.store k2)
        ((RedisRateLimitStore.tryConsume r k limit W t).2.store k2) := by
    intro k2 hk2
    rw [inMemory_tryConsume_frame m k limit W t k2 hk2,
      redis_tryConsume_frame r k limit W t k2 hk2]
    exact entryRel_mono (le_of_lt htp) (hinv k2)
  cases hrs : r.store k with
  | none =>
      have hexp : AllExpired (entryTimestamps m k) t W := by
        cases hms : m.store k with
        | none => intro x hx; simp [entryTimestamps, hms] at hx
        | some e =>
            rw [hms, hrs] at hk
            have : AllExpired e.timestamps t W :=
              allExpired_mono (le_of_lt htp) hk
            simpa [entryTimestamps, hms] using this
      have hpruned : (entryTimestamps m k).filter
          (tsInWindow (windowStartOf t W)) = [] :=
        filter_tsInWindow_eq_nil hexp
      have hlive : r.live k t = none := by
        simp [RedisState.live, hrs]
      have hred := redis_tryConsume_of_dead r k limit W t hlive
      constructor
      · rw [hmemres, hred.1, hpruned]
        simp
      · intro k2
        by_cases hk2 : k2 = k
        · subst hk2
          rw [hmemstore, hred.2, hpruned]
          by_cases hlim : 0 < limit
          · rw [if_pos hlim, if_pos (by simpa using hlim)]
            refine ⟨by simp, t + W * 1000, rfl, Or.inl ⟨by omega, by simp, ?_⟩⟩
            intro x hx
            simp at hx
            omega
          · rw [if_neg hlim, if_neg (by simpa using hlim)]
            intro x hx
            simp at hx
        · exact hother k2 hk2
  | some re =>
      cases hms : m.store k with
      | none =>
          rw [hms, hrs] at hk
          exact absurd hk (by simp [EntryRel])
      | some e =>
          rw [hms, hrs] at hk
          obtain ⟨hb, d, hd, hcase⟩ := hk
          by_cases hdt : t < d
          · have hlivecase : tp < d ∧ e.timestamps = re.members ∧
                ∀ x ∈ re.members, x + W * 1000 ≤ d := by
              rcases hcase with h | h
              · exact h
              · omega
            obtain ⟨_, heq, hmembound⟩ := hlivecase
            have hre : re = ⟨re.members, some d⟩ := by
              cases re with
              | mk ms ex => simp at hd; rw [hd]
            have hmemlt : ∀ x ∈ re.members, x < t := by
              intro x hx
              have := hb x (heq ▸ hx)
              omega
            have hred := redis_tryConsume_of_live r k limit W t re.members d
              (hre ▸ hrs) hdt hmemlt
            have hE : entryTimestamps m k = re.members := by
              simp [entryTimestamps, hms, heq]
            constructor
            · rw [hmemres, hred.1, hE]
            · intro k2
              by_cases hk2 : k2 = k
              · subst hk2
                rw [hmemstore, hred.2, hE]
                by_cases hlim : (re.members.filter
                    (tsInWindow (windowStartOf t W))).length < limit
                · rw [if_pos hlim, if_pos hlim]
                  refine ⟨?_, t + W * 1000, rfl, Or.inl ⟨by omega, rfl, ?_⟩⟩
                  · intro x hx
                    rcases List.mem_append.mp hx with hx | hx
                    · have := hmemlt x (List.mem_of_mem_filter hx)
                      omega
                    · simp at hx
                      omega
                  · intro x hx
                    rcases List.mem_append.mp hx with hx | hx
                    · have := hmemlt x (List.mem_of_mem_filter hx)
                      omega
                    · simp at hx
                      omega
                · rw [if_neg hlim, if_neg hlim, List.append_nil]
                  by_cases hempty : (re.members.filter
                      (tsInWindow (windowStartOf t W))).isEmpty
                  · rw [if_pos hempty]
                    have : (re.members.filter
                        (tsInWindow (windowStartOf t W))) = [] :=
                      List.isEmpty_iff.mp hempty
                    rw [this]
                    intro x hx
                    simp at hx
                  · rw [if_neg hempty]
                    refine ⟨?_, d, rfl, Or.inl ⟨hdt, rfl, ?_⟩⟩
                    · intro x hx
                      have := hmemlt x (List.mem_of_mem_filter hx)
                      omega
                    · intro x hx
                      exact hmembound x (List.mem_of_mem_filter hx)
              · exact hother k2 hk2
          · have hdead : d ≤ t := by omega
            have hexp : AllExpired (entryTimestamps m k) t W := by
              rcases hcase with ⟨_, heq, hmembound⟩ | ⟨_, hexp0⟩
              · intro x hx
                rw [entryTimestamps, hms] at hx
                have := hmembound x (heq ▸ hx)
                simp at hx ⊢
                omega
              · have := allExpired_mono (le_of_lt htp) hexp0
                simpa [entryTimestamps, hms] using this
            have hpruned : (entryTimestamps m k).filter
                (tsInWindow (windowStartOf t W)) = [] :=
              filter_tsInWindow_eq_nil hexp
            have hlive : r.live k t = none := by
              have hre : re = ⟨re.members, some d⟩ := by
                cases re with
                | mk ms ex => simp at hd; rw [hd]
              rw [RedisState.live, hrs, hre]
              simp [hdead]
            have hred := redis_tryConsume_of_dead r k limit W t hlive
            constructor
            · rw [hmemres, hred.1, hpruned]
              simp
            · intro k2
              by_cases hk2 : k2 = k
              · subst hk2
                rw [hmemstore, hred.2, hpruned]
                by_cases hlim : 0 < limit
                · rw [if_pos hlim, if_pos (by simpa using hlim)]
                  refine ⟨by simp, t + W * 1000, rfl,
                    Or.inl ⟨by omega, by simp, ?_⟩⟩
                  intro x hx
                  simp at hx
                  omega
                · rw [if_neg hlim, if_neg (by simpa using hlim)]
                  intro x hx
                  simp at hx
              · exact hother k2 hk2

lemma reset_step_rel (W tp t : Nat) (htp : tp ≤ t) (k : String)
    (m : InMemoryRateLimitStore) (r : RedisState)
    (hinv : StoresRel W tp m r) :
    StoresRel W t (m.reset k) (RedisRateLimitStore.reset r k) := by
  intro k2
  by_cases hk2 : k2 = k
  · subst hk2
    simp only [InMemoryRateLimitStore.reset, InMemoryRateLimitStore.set,
      RedisRateLimitStore.reset, RedisState.del, RedisState.set]
    simp [EntryRel]
  · rw [show (m.reset k).store k2 = m.store k2 by
        simp [InMemoryRateLimitStore.reset, InMemoryRateLimitStore.set, hk2],
      show (RedisRateLimitStore.reset r k).store k2 = r.store k2 by
        simp [RedisRateLimitStore.reset, RedisState.del, RedisState.set, hk2]]
    exact entryRel_mono htp (hinv k2)

/-- Operation admissible for the equivalence run: a `tryConsume` with the
common window `W` or a `reset` (a `getCount` is excluded: the
counterexample shows it can diverge on stale keys). -/
def opOkFor (W : Nat) : StoreOp → Prop
  | .tryConsume _ _ w => w = W
  | .getCount _ => False
  | .reset _ => True

lemma runOps_rel (W : Nat) (hW : 0 < W) :
    ∀ (ops : List (StoreOp × Nat)) (m : InMemoryRateLimitStore)
      (r : RedisState) (tp : Nat),
    StoresRel W tp m r →
    List.Chain (· < ·) tp (ops.map (·.2)) →
    (∀ o ∈ ops, opOkFor W o.1) →
    InMemoryRateLimitStore.runOps ops m = RedisRateLimitStore.runOps ops r := by
  intro ops
  induction ops with
  | nil => intro m r tp _ _ _; rfl
  | cons op rest ih =>
      intro m r tp hinv hchain hops
      obtain ⟨o, t⟩ := op
      rw [List.map_cons, List.chain_cons] at hchain
      obtain ⟨htp, hchain2⟩ := hchain
      have hoprest : ∀ o2 ∈ rest, opOkFor W o2.1 :=
        fun o2 h2 => hops o2 (List.mem_cons_of_mem _ h2)
      cases o with
      | tryConsume k l w =>
          have hw : w = W := hops (.tryConsume k l w, t)
            (List.mem_cons_self _ _)
          rw [hw]
          have hstep := tryConsume_step_rel W l hW tp t htp k m r hinv
          simp only [InMemoryRateLimitStore.runOps, RedisRateLimitStore.runOps]
          rw [hstep.1, ih _ _ t hstep.2 hchain2 hoprest]
      | getCount k =>
          exact absurd (hops (.getCount k, t) (List.mem_cons_self _ _))
            (by simp [opOkFor])
      | reset k =>
          have hstep := reset_step_rel W tp t (le_of_lt htp) k m r hinv
          simp only [InMemoryRateLimitStore.runOps, RedisRateLimitStore.runOps]
          rw [ih _ _ t hstep hchain2 hoprest]

/-- C4 amended: restricted to `tryConsume` and `reset` operations executed
at strictly increasing (epoch-positive) timestamps with one common
`windowSeconds`, the in-memory and the Redis-backed store produce identical
observable results from empty initial states.  (`getCount` and
same-millisecond consumptions are excluded — the counterexample shows the
Redis member deduplication and key TTL make them diverge.) -/
theorem store_observational_equivalence (W : Nat) (ops : List (StoreOp × Nat))
    (hW : 0 < W)
    (hchain : List.Chain (· < ·) 0 (ops.map (·.2)))
    (hops : ∀ o ∈ ops, opOkFor W o.1) :
    InMemoryRateLimitStore.runOps ops InMemoryRateLimitStore.empty =
      RedisRateLimitStore.runOps ops RedisState.empty :=
  runOps_rel W hW ops InMemoryRateLimitStore.empty RedisState.empty 0
    (fun _ => trivial) hchain hops

/-- Concrete instance of `store_observational_equivalence`: consume, consume
(denied), reset, consume again — both stores answer identically. -/
theorem store_observational_equivalence_witness :
    InMemoryRateLimitStore.runOps
        [(.tryConsume "k" 1 3600, 1000), (.tryConsume "k" 1 3600, 2000),
         (.reset "k", 3000), (.tryConsume "k" 1 3600, 4000)]
        InMemoryRateLimitStore.empty =
      RedisRateLimitStore.runOps
        [(.tryConsume "k" 1 3600, 1000), (.tryConsume "k" 1 3600, 2000),
         (.reset "k", 3000), (.tryConsume "k" 1 3600, 4000)]
        RedisState.empty :=
  store_observational_equivalence 3600
    [(.tryConsume "k" 1 3600, 1000), (.tryConsume "k" 1 3600, 2000),
     (.reset "k", 3000), (.tryConsume "k" 1 3600, 4000)]
    (by decide)
    (List.Chain.cons (by decide) (List.Chain.cons (by decide)
      (List.Chain.cons (by decide) (List.Chain.cons (by decide)
        List.Chain.nil))))
    (by
      intro o ho
      fin_cases ho <;> simp [opOkFor])

end Waterfall

namespace Waterfall

example :
    (InMemoryRateLimitStore.empty.tryConsume "k" 1 3600 0).1 = true := by
  decide

example :
    ((InMemoryRateLimitStore.empty.tryConsume "k" 1 3600 0).2.tryConsume
      "k" 1 3600 1).1 = false := by
  decide

example : rateLimitKey .orionConnect 3600000 = "provider:OrionConnect:1" := by
  decide

end Waterfall
